import Mathlib

/-!
Verification development for the LULESH halo-exchange communication layer
(`examples/LULESH/lulesh-comm.cc`).  The five protocol entry points
`CommRecv`, `CommSend`, `CommSBN`, `CommSyncPosVel` and `CommMonoQ` are
shallowly embedded: each function is modelled as a pure state transformer
over explicit records of posted transport operations, buffer writes and
field writes, translated branch by branch from the source file.  Real_t
values are modelled by rationals; buffers and mesh fields are modelled as
total functions from indices to values.
-/

namespace LuleshComm

/-- A neighbor direction: `x` is the column delta, `y` the row delta and
`z` the plane delta, each in {-1, 0, 1}. -/
structure Dir where
  x : Int
  y : Int
  z : Int
deriving DecidableEq, Repr

/-- The 26 neighbor directions, in the canonical traversal order of the
source: the six faces (planeMin, planeMax, rowMin, rowMax, colMin, colMax),
then the twelve edges, then the eight corners, each in source order. -/
def dirs26 : List Dir :=
  [⟨0,0,-1⟩, ⟨0,0,1⟩, ⟨0,-1,0⟩, ⟨0,1,0⟩, ⟨-1,0,0⟩, ⟨1,0,0⟩,
   ⟨-1,-1,0⟩, ⟨0,-1,-1⟩, ⟨-1,0,-1⟩, ⟨1,1,0⟩, ⟨0,1,1⟩, ⟨1,0,1⟩,
   ⟨-1,1,0⟩, ⟨0,-1,1⟩, ⟨-1,0,1⟩, ⟨1,-1,0⟩, ⟨0,1,-1⟩, ⟨1,0,-1⟩,
   ⟨-1,-1,-1⟩, ⟨-1,-1,1⟩, ⟨1,-1,-1⟩, ⟨1,-1,1⟩,
   ⟨-1,1,-1⟩, ⟨-1,1,1⟩, ⟨1,1,-1⟩, ⟨1,1,1⟩]

/-- Componentwise negation of a direction. -/
def Dir.neg (d : Dir) : Dir := ⟨-d.x, -d.y, -d.z⟩

/-- The rank offset of a neighbor in direction `d` on a `tp × tp × tp`
grid with one domain per rank: `dz·tp² + dy·tp + dx`. -/
def rankOff (d : Dir) (tp : Nat) : Int :=
  d.z * tp * tp + d.y * tp + d.x

/-- `rowMin` boundary flag, computed as in lulesh-comm.cc lines 112-131:
start from `true`, clear when the location sits at the low grid extreme. -/
def rowMinF (rowLoc : Nat) : Bool := if rowLoc = 0 then false else true

/-- `rowMax` boundary flag (cleared when `rowLoc = tp-1`). -/
def rowMaxF (rowLoc tp : Nat) : Bool := if rowLoc = tp - 1 then false else true

/-- `colMin` boundary flag. -/
def colMinF (colLoc : Nat) : Bool := if colLoc = 0 then false else true

/-- `colMax` boundary flag. -/
def colMaxF (colLoc tp : Nat) : Bool := if colLoc = tp - 1 then false else true

/-- `planeMin` boundary flag. -/
def planeMinF (planeLoc : Nat) : Bool := if planeLoc = 0 then false else true

/-- `planeMax` boundary flag. -/
def planeMaxF (planeLoc tp : Nat) : Bool := if planeLoc = tp - 1 then false else true

/-- One posted receive of `CommRecv`: the direction it serves, the source
rank, the offset into `commDataRecv`, the element count, and the index of
the `recvRequest` slot used. -/
structure RecvPost where
  dir : Dir
  fromRank : Int
  offset : Nat
  count : Nat
  reqIdx : Nat
deriving DecidableEq, Repr

/-- Traversal state of `CommRecv`: receives posted so far plus the three
message counters `pmsg`, `emsg`, `cmsg`. -/
structure RecvSt where
  posts : List RecvPost
  pmsg : Nat
  emsg : Nat
  cmsg : Nat
deriving DecidableEq, Repr

/-- One plane-message receive branch of `CommRecv` (e.g. lines 142-158):
when the branch condition holds, post a receive at buffer offset
`pmsg * maxPlaneComm` using request slot `pmsg`, then increment `pmsg`. -/
def recvPlane (cond : Bool) (dir : Dir) (fromRank : Int) (cnt mpc : Nat)
    (s : RecvSt) : RecvSt :=
  if cond then
    { posts := s.posts ++
        [{ dir := dir, fromRank := fromRank, offset := s.pmsg * mpc,
           count := cnt, reqIdx := s.pmsg }],
      pmsg := s.pmsg + 1, emsg := s.emsg, cmsg := s.cmsg }
  else s

/-- One edge-message receive branch of `CommRecv` (e.g. lines 242-256):
buffer offset `pmsg * maxPlaneComm + emsg * maxEdgeComm`, request slot
`pmsg + emsg`, then increment `emsg`. -/
def recvEdge (cond : Bool) (dir : Dir) (fromRank : Int) (cnt mpc mec : Nat)
    (s : RecvSt) : RecvSt :=
  if cond then
    { posts := s.posts ++
        [{ dir := dir, fromRank := fromRank,
           offset := s.pmsg * mpc + s.emsg * mec,
           count := cnt, reqIdx := s.pmsg + s.emsg }],
      pmsg := s.pmsg, emsg := s.emsg + 1, cmsg := s.cmsg }
  else s

/-- One corner-message receive branch of `CommRecv` (e.g. lines 435-456):
buffer offset `pmsg * maxPlaneComm + emsg * maxEdgeComm + cmsg * pad`,
request slot `pmsg + emsg + cmsg`, then increment `cmsg`. -/
def recvCorner (cond : Bool) (dir : Dir) (fromRank : Int) (cnt mpc mec pad : Nat)
    (s : RecvSt) : RecvSt :=
  if cond then
    { posts := s.posts ++
        [{ dir := dir, fromRank := fromRank,
           offset := s.pmsg * mpc + s.emsg * mec + s.cmsg * pad,
           count := cnt, reqIdx := s.pmsg + s.emsg + s.cmsg }],
      pmsg := s.pmsg, emsg := s.emsg, cmsg := s.cmsg + 1 }
  else s

/-- The receive-posting traversal of `CommRecv` (lulesh-comm.cc lines
139-611), with the six boundary flags hoisted as parameters.  `mpc` is
`maxPlaneComm = xferFields * maxPlaneSize`, `mec` is `maxEdgeComm`, `pad`
is `CACHE_COHERENCE_PAD_REAL`.  Branch order, conditions (including the
`doRecv` guards), source ranks, counts and offsets follow the source. -/
def commRecvPosts (mpc mec pad : Nat) (myRank : Int) (tp xf dx dy dz : Nat)
    (rm rM cm cM pm pM doRecv planeOnly : Bool) : RecvSt :=
  let s := RecvSt.mk [] 0 0 0
  let s := recvPlane (pm && doRecv) ⟨0,0,-1⟩ (myRank - (tp:Int)*tp) (dx*dy*xf) mpc s
  let s := recvPlane pM ⟨0,0,1⟩ (myRank + (tp:Int)*tp) (dx*dy*xf) mpc s
  let s := recvPlane (rm && doRecv) ⟨0,-1,0⟩ (myRank - (tp:Int)) (dx*dz*xf) mpc s
  let s := recvPlane rM ⟨0,1,0⟩ (myRank + (tp:Int)) (dx*dz*xf) mpc s
  let s := recvPlane (cm && doRecv) ⟨-1,0,0⟩ (myRank - 1) (dy*dz*xf) mpc s
  let s := recvPlane cM ⟨1,0,0⟩ (myRank + 1) (dy*dz*xf) mpc s
  if planeOnly then s else
  let s := recvEdge (rm && cm && doRecv) ⟨-1,-1,0⟩ (myRank - (tp:Int) - 1) (dz*xf) mpc mec s
  let s := recvEdge (rm && pm && doRecv) ⟨0,-1,-1⟩ (myRank - (tp:Int)*tp - tp) (dx*xf) mpc mec s
  let s := recvEdge (cm && pm && doRecv) ⟨-1,0,-1⟩ (myRank - (tp:Int)*tp - 1) (dy*xf) mpc mec s
  let s := recvEdge (rM && cM) ⟨1,1,0⟩ (myRank + (tp:Int) + 1) (dz*xf) mpc mec s
  let s := recvEdge (rM && pM) ⟨0,1,1⟩ (myRank + (tp:Int)*tp + tp) (dx*xf) mpc mec s
  let s := recvEdge (cM && pM) ⟨1,0,1⟩ (myRank + (tp:Int)*tp + 1) (dy*xf) mpc mec s
  let s := recvEdge (rM && cm) ⟨-1,1,0⟩ (myRank + (tp:Int) - 1) (dz*xf) mpc mec s
  let s := recvEdge (rm && pM) ⟨0,-1,1⟩ (myRank + (tp:Int)*tp - tp) (dx*xf) mpc mec s
  let s := recvEdge (cm && pM) ⟨-1,0,1⟩ (myRank + (tp:Int)*tp - 1) (dy*xf) mpc mec s
  let s := recvEdge (rm && cM && doRecv) ⟨1,-1,0⟩ (myRank - (tp:Int) + 1) (dz*xf) mpc mec s
  let s := recvEdge (rM && pm && doRecv) ⟨0,1,-1⟩ (myRank - (tp:Int)*tp + tp) (dx*xf) mpc mec s
  let s := recvEdge (cM && pm && doRecv) ⟨1,0,-1⟩ (myRank - (tp:Int)*tp + 1) (dy*xf) mpc mec s
  let s := recvCorner (rm && cm && pm && doRecv) ⟨-1,-1,-1⟩ (myRank - (tp:Int)*tp - tp - 1) xf mpc mec pad s
  let s := recvCorner (rm && cm && pM) ⟨-1,-1,1⟩ (myRank + (tp:Int)*tp - tp - 1) xf mpc mec pad s
  let s := recvCorner (rm && cM && pm && doRecv) ⟨1,-1,-1⟩ (myRank - (tp:Int)*tp - tp + 1) xf mpc mec pad s
  let s := recvCorner (rm && cM && pM) ⟨1,-1,1⟩ (myRank + (tp:Int)*tp - tp + 1) xf mpc mec pad s
  let s := recvCorner (rM && cm && pm && doRecv) ⟨-1,1,-1⟩ (myRank - (tp:Int)*tp + tp - 1) xf mpc mec pad s
  let s := recvCorner (rM && cm && pM) ⟨-1,1,1⟩ (myRank + (tp:Int)*tp + tp - 1) xf mpc mec pad s
  let s := recvCorner (rM && cM && pm && doRecv) ⟨1,1,-1⟩ (myRank - (tp:Int)*tp + tp + 1) xf mpc mec pad s
  let s := recvCorner (rM && cM && pM) ⟨1,1,1⟩ (myRank + (tp:Int)*tp + tp + 1) xf mpc mec pad s
  s

/-- `CommRecv` (lulesh-comm.cc lines 71-612): early return when
`numRanks = 1`, otherwise compute the boundary flags from the logical grid
position and run the posting traversal. -/
def commRecv (numRanks mps mes pad : Nat) (myRank : Int)
    (tp rowLoc colLoc planeLoc xf dx dy dz : Nat)
    (doRecv planeOnly : Bool) : RecvSt :=
  if numRanks = 1 then RecvSt.mk [] 0 0 0
  else
    commRecvPosts (xf * mps) (xf * mes) pad myRank tp xf dx dy dz
      (rowMinF rowLoc) (rowMaxF rowLoc tp) (colMinF colLoc) (colMaxF colLoc tp)
      (planeMinF planeLoc) (planeMaxF planeLoc tp) doRecv planeOnly

/-- Projection of a posted receive to its direction and source rank. -/
def RecvPost.dirRank (e : RecvPost) : Dir × Int := (e.dir, e.fromRank)

theorem recvPlane_map_dirRank (cond : Bool) (d : Dir) (fr : Int) (cnt mpc : Nat)
    (s : RecvSt) :
    ((recvPlane cond d fr cnt mpc s).posts).map RecvPost.dirRank =
      s.posts.map RecvPost.dirRank ++ (if cond then [(d, fr)] else []) := by
  by_cases h : cond <;> simp [recvPlane, h, RecvPost.dirRank]

theorem recvEdge_map_dirRank (cond : Bool) (d : Dir) (fr : Int) (cnt mpc mec : Nat)
    (s : RecvSt) :
    ((recvEdge cond d fr cnt mpc mec s).posts).map RecvPost.dirRank =
      s.posts.map RecvPost.dirRank ++ (if cond then [(d, fr)] else []) := by
  by_cases h : cond <;> simp [recvEdge, h, RecvPost.dirRank]

theorem recvCorner_map_dirRank (cond : Bool) (d : Dir) (fr : Int)
    (cnt mpc mec pad : Nat) (s : RecvSt) :
    ((recvCorner cond d fr cnt mpc mec pad s).posts).map RecvPost.dirRank =
      s.posts.map RecvPost.dirRank ++ (if cond then [(d, fr)] else []) := by
  by_cases h : cond <;> simp [recvCorner, h, RecvPost.dirRank]

theorem commRecvPosts_rank_mem (mpc mec pad : Nat) (myRank : Int)
    (tp xf dx dy dz : Nat) (rm rM cm cM pm pM dR pO : Bool) :
    ∀ e ∈ (commRecvPosts mpc mec pad myRank tp xf dx dy dz
            rm rM cm cM pm pM dR pO).posts,
      e.dir ∈ dirs26 ∧ e.fromRank = myRank + rankOff e.dir tp := by
  intro e he
  have h2 : (e.dir, e.fromRank) ∈
      ((commRecvPosts mpc mec pad myRank tp xf dx dy dz
        rm rM cm cM pm pM dR pO).posts).map RecvPost.dirRank :=
    List.mem_map_of_mem _ he
  by_cases hpo : pO
  · simp only [commRecvPosts, hpo, if_true,
      recvPlane_map_dirRank, List.map_nil, List.nil_append, List.append_assoc,
      List.mem_append, List.mem_ite_nil_right, List.mem_singleton] at h2
    rcases h2 with ⟨-, hc⟩|⟨-, hc⟩|⟨-, hc⟩|⟨-, hc⟩|⟨-, hc⟩|⟨-, hc⟩ <;>
      (rw [Prod.mk.injEq] at hc; obtain ⟨hd, hr⟩ := hc;
       rw [hd, hr]; exact ⟨by decide, by simp [rankOff]; try ring⟩)
  · simp only [commRecvPosts, hpo, if_false, Bool.false_eq_true,
      recvPlane_map_dirRank, recvEdge_map_dirRank, recvCorner_map_dirRank,
      List.map_nil, List.nil_append, List.append_assoc,
      List.mem_append, List.mem_ite_nil_right, List.mem_singleton] at h2
    rcases h2 with ⟨-, hc⟩|⟨-, hc⟩|⟨-, hc⟩|⟨-, hc⟩|⟨-, hc⟩|⟨-, hc⟩|⟨-, hc⟩|⟨-, hc⟩|
      ⟨-, hc⟩|⟨-, hc⟩|⟨-, hc⟩|⟨-, hc⟩|⟨-, hc⟩|⟨-, hc⟩|⟨-, hc⟩|⟨-, hc⟩|⟨-, hc⟩|
      ⟨-, hc⟩|⟨-, hc⟩|⟨-, hc⟩|⟨-, hc⟩|⟨-, hc⟩|⟨-, hc⟩|⟨-, hc⟩|⟨-, hc⟩|⟨-, hc⟩ <;>
      (rw [Prod.mk.injEq] at hc; obtain ⟨hd, hr⟩ := hc;
       rw [hd, hr]; exact ⟨by decide, by simp [rankOff]; try ring⟩)

/-- A direction is active at a logical position when every nonzero
component avoids the corresponding grid extreme: component -1 requires the
coordinate to be nonzero, component +1 requires it to be below `tp - 1`. -/
def dirActive (d : Dir) (rowLoc colLoc planeLoc tp : Nat) : Prop :=
  (d.y = -1 → rowLoc ≠ 0) ∧ (d.y = 1 → rowLoc ≠ tp - 1) ∧
  (d.x = -1 → colLoc ≠ 0) ∧ (d.x = 1 → colLoc ≠ tp - 1) ∧
  (d.z = -1 → planeLoc ≠ 0) ∧ (d.z = 1 → planeLoc ≠ tp - 1)

instance (d : Dir) (rowLoc colLoc planeLoc tp : Nat) :
    Decidable (dirActive d rowLoc colLoc planeLoc tp) := by
  unfold dirActive; infer_instance

/-- A direction does not wrap around the grid at a position: the neighbor
coordinates stay inside `[0, tp)` in all three axes. -/
def noWrap (d : Dir) (rowLoc colLoc planeLoc tp : Nat) : Prop :=
  0 ≤ (rowLoc : Int) + d.y ∧ (rowLoc : Int) + d.y < tp ∧
  0 ≤ (colLoc : Int) + d.x ∧ (colLoc : Int) + d.x < tp ∧
  0 ≤ (planeLoc : Int) + d.z ∧ (planeLoc : Int) + d.z < tp

instance (d : Dir) (rowLoc colLoc planeLoc tp : Nat) :
    Decidable (noWrap d rowLoc colLoc planeLoc tp) := by
  unfold noWrap; infer_instance

theorem rowMinF_iff (rowLoc : Nat) : rowMinF rowLoc = true ↔ rowLoc ≠ 0 := by
  unfold rowMinF; split <;> simp_all

theorem rowMaxF_iff (rowLoc tp : Nat) : rowMaxF rowLoc tp = true ↔ rowLoc ≠ tp - 1 := by
  unfold rowMaxF; split <;> simp_all

theorem colMinF_iff (colLoc : Nat) : colMinF colLoc = true ↔ colLoc ≠ 0 := by
  unfold colMinF; split <;> simp_all

theorem colMaxF_iff (colLoc tp : Nat) : colMaxF colLoc tp = true ↔ colLoc ≠ tp - 1 := by
  unfold colMaxF; split <;> simp_all

theorem planeMinF_iff (planeLoc : Nat) : planeMinF planeLoc = true ↔ planeLoc ≠ 0 := by
  unfold planeMinF; split <;> simp_all

theorem planeMaxF_iff (planeLoc tp : Nat) : planeMaxF planeLoc tp = true ↔ planeLoc ≠ tp - 1 := by
  unfold planeMaxF; split <;> simp_all

theorem recvPlane_countDir (d : Dir) (cond : Bool) (d0 : Dir) (fr : Int)
    (cnt mpc : Nat) (s : RecvSt) :
    ((recvPlane cond d0 fr cnt mpc s).posts).countP (fun e => e.dir = d) =
      (s.posts).countP (fun e => e.dir = d) +
        (if cond = true ∧ d0 = d then 1 else 0) := by
  by_cases h : cond <;> by_cases h2 : d0 = d <;>
    simp [recvPlane, h, h2, List.countP_append]

theorem recvEdge_countDir (d : Dir) (cond : Bool) (d0 : Dir) (fr : Int)
    (cnt mpc mec : Nat) (s : RecvSt) :
    ((recvEdge cond d0 fr cnt mpc mec s).posts).countP (fun e => e.dir = d) =
      (s.posts).countP (fun e => e.dir = d) +
        (if cond = true ∧ d0 = d then 1 else 0) := by
  by_cases h : cond <;> by_cases h2 : d0 = d <;>
    simp [recvEdge, h, h2, List.countP_append]

theorem recvCorner_countDir (d : Dir) (cond : Bool) (d0 : Dir) (fr : Int)
    (cnt mpc mec pad : Nat) (s : RecvSt) :
    ((recvCorner cond d0 fr cnt mpc mec pad s).posts).countP (fun e => e.dir = d) =
      (s.posts).countP (fun e => e.dir = d) +
        (if cond = true ∧ d0 = d then 1 else 0) := by
  by_cases h : cond <;> by_cases h2 : d0 = d <;>
    simp [recvCorner, h, h2, List.countP_append]

theorem commRecvPosts_active_mem (mpc mec pad : Nat) (myRank : Int)
    (tp rowLoc colLoc planeLoc xf dx dy dz : Nat)
    (hr : rowLoc < tp) (hc : colLoc < tp) (hp : planeLoc < tp)
    (dR pO : Bool) :
    ∀ e ∈ (commRecvPosts mpc mec pad myRank tp xf dx dy dz
            (rowMinF rowLoc) (rowMaxF rowLoc tp) (colMinF colLoc) (colMaxF colLoc tp)
            (planeMinF planeLoc) (planeMaxF planeLoc tp) dR pO).posts,
      e.dir ∈ dirs26 ∧ dirActive e.dir rowLoc colLoc planeLoc tp ∧
        noWrap e.dir rowLoc colLoc planeLoc tp := by
  intro e he
  have h2 : (e.dir, e.fromRank) ∈
      ((commRecvPosts mpc mec pad myRank tp xf dx dy dz
        (rowMinF rowLoc) (rowMaxF rowLoc tp) (colMinF colLoc) (colMaxF colLoc tp)
        (planeMinF planeLoc) (planeMaxF planeLoc tp) dR pO).posts).map RecvPost.dirRank :=
    List.mem_map_of_mem _ he
  by_cases hpo : pO
  · simp only [commRecvPosts, hpo, if_true,
      recvPlane_map_dirRank, List.map_nil, List.nil_append, List.append_assoc,
      List.mem_append, List.mem_ite_nil_right, List.mem_singleton,
      Bool.and_eq_true, rowMinF_iff, rowMaxF_iff, colMinF_iff, colMaxF_iff,
      planeMinF_iff, planeMaxF_iff] at h2
    rcases h2 with ⟨hq, hcp⟩|⟨hq, hcp⟩|⟨hq, hcp⟩|⟨hq, hcp⟩|⟨hq, hcp⟩|⟨hq, hcp⟩ <;>
      (rw [Prod.mk.injEq] at hcp; rw [hcp.1];
       exact ⟨by decide, by simp only [dirActive]; (try simp) <;> omega,
         by simp only [noWrap]; (try simp) <;> omega⟩)
  · simp only [commRecvPosts, hpo, if_false, Bool.false_eq_true,
      recvPlane_map_dirRank, recvEdge_map_dirRank, recvCorner_map_dirRank,
      List.map_nil, List.nil_append, List.append_assoc,
      List.mem_append, List.mem_ite_nil_right, List.mem_singleton,
      Bool.and_eq_true, rowMinF_iff, rowMaxF_iff, colMinF_iff, colMaxF_iff,
      planeMinF_iff, planeMaxF_iff] at h2
    rcases h2 with ⟨hq, hcp⟩|⟨hq, hcp⟩|⟨hq, hcp⟩|⟨hq, hcp⟩|⟨hq, hcp⟩|⟨hq, hcp⟩|
      ⟨hq, hcp⟩|⟨hq, hcp⟩|⟨hq, hcp⟩|⟨hq, hcp⟩|⟨hq, hcp⟩|⟨hq, hcp⟩|⟨hq, hcp⟩|
      ⟨hq, hcp⟩|⟨hq, hcp⟩|⟨hq, hcp⟩|⟨hq, hcp⟩|⟨hq, hcp⟩|⟨hq, hcp⟩|⟨hq, hcp⟩|
      ⟨hq, hcp⟩|⟨hq, hcp⟩|⟨hq, hcp⟩|⟨hq, hcp⟩|⟨hq, hcp⟩|⟨hq, hcp⟩ <;>
      (rw [Prod.mk.injEq] at hcp; rw [hcp.1];
       exact ⟨by decide, by simp only [dirActive]; (try simp) <;> omega,
         by simp only [noWrap]; (try simp) <;> omega⟩)

/-- C1: with `doRecv = true` and `planeOnly = false`, `CommRecv` posts
exactly one receive for each of the 26 directions that is active at the
domain's logical position (every nonzero component avoids the matching
grid extreme), posts no receive for any other direction, and no posted
receive wraps around the grid. -/
theorem commRecv_posts_exactly_active
    (numRanks mps mes pad : Nat) (myRank : Int)
    (tp rowLoc colLoc planeLoc xf dx dy dz : Nat)
    (hn : numRanks ≠ 1)
    (hr : rowLoc < tp) (hc : colLoc < tp) (hp : planeLoc < tp) :
    (∀ d ∈ dirs26,
      ((commRecv numRanks mps mes pad myRank tp rowLoc colLoc planeLoc
          xf dx dy dz true false).posts).countP (fun e => e.dir = d) =
        (if dirActive d rowLoc colLoc planeLoc tp then 1 else 0)) ∧
    (∀ e ∈ (commRecv numRanks mps mes pad myRank tp rowLoc colLoc planeLoc
          xf dx dy dz true false).posts,
      e.dir ∈ dirs26 ∧ dirActive e.dir rowLoc colLoc planeLoc tp ∧
        noWrap e.dir rowLoc colLoc planeLoc tp) := by
  constructor
  · intro d hd
    unfold commRecv
    rw [if_neg hn]
    simp only [commRecvPosts, Bool.and_true, Bool.false_eq_true, if_false,
      recvPlane_countDir, recvEdge_countDir, recvCorner_countDir, List.countP_nil]
    simp only [dirs26, List.mem_cons, List.not_mem_nil, or_false] at hd
    rcases hd with rfl|rfl|rfl|rfl|rfl|rfl|rfl|rfl|rfl|rfl|rfl|rfl|rfl|
      rfl|rfl|rfl|rfl|rfl|rfl|rfl|rfl|rfl|rfl|rfl|rfl|rfl <;>
      (simp [rowMinF_iff, rowMaxF_iff, colMinF_iff, colMaxF_iff,
        planeMinF_iff, planeMaxF_iff, dirActive, Dir.mk.injEq];
       try (split_ifs <;> omega))
  · intro e he
    refine commRecvPosts_active_mem (xf * mps) (xf * mes) pad myRank
      tp rowLoc colLoc planeLoc xf dx dy dz hr hc hp true false e ?_
    have := he
    unfold commRecv at this
    rw [if_neg hn] at this
    exact this

/-- Concrete witness for `commRecv_posts_exactly_active`. -/
theorem commRecv_posts_exactly_active_witness :
    (∀ d ∈ dirs26,
      ((commRecv 8 5 3 4 7 2 0 1 1 6 3 3 3 true false).posts).countP
          (fun e => e.dir = d) =
        (if dirActive d 0 1 1 2 then 1 else 0)) ∧
    (∀ e ∈ (commRecv 8 5 3 4 7 2 0 1 1 6 3 3 3 true false).posts,
      e.dir ∈ dirs26 ∧ dirActive e.dir 0 1 1 2 ∧ noWrap e.dir 0 1 1 2) :=
  commRecv_posts_exactly_active 8 5 3 4 7 2 0 1 1 6 3 3 3
    (by decide) (by decide) (by decide) (by decide)

/-- Sequential writes to a store keyed by `κ`: later writes win
(`foldl` over the list, each write realized by `Function.update`). -/
def runW {κ : Type} [DecidableEq κ] (ws : List (κ × ℚ)) (f : κ → ℚ) : κ → ℚ :=
  ws.foldl (fun g w => Function.update g w.1 w.2) f

/-- The buffer writes of a contiguous gather loop of `CommSend` (e.g.
lines 694-701): for each field `fi` in list order, for each `i < cnt`,
write `F fi (srcIdx i)` at `base + fi*cnt + i` (the running `destAddr`
advances by `cnt` after each field). -/
def packWritesC (xf cnt base : Nat) (srcIdx : Nat → Nat) (F : Nat → Nat → ℚ) :
    List (Nat × ℚ) :=
  (List.range xf).flatMap fun fi =>
    (List.range cnt).map fun i => (base + fi * cnt + i, F fi (srcIdx i))

/-- The buffer writes of a doubly nested gather loop of `CommSend` (e.g.
lines 741-750): for each field, for `i < n1` and `j < n2` write
`F fi (srcIdx i j)` at buffer position `bufIdx i j` of the field's segment
of length `cnt`. -/
def packWritesN (xf n1 n2 cnt base : Nat) (bufIdx srcIdx : Nat → Nat → Nat)
    (F : Nat → Nat → ℚ) : List (Nat × ℚ) :=
  (List.range xf).flatMap fun fi =>
    (List.range n1).flatMap fun i =>
      (List.range n2).map fun j =>
        (base + fi * cnt + bufIdx i j, F fi (srcIdx i j))

/-- The buffer writes of a corner gather of `CommSend` (e.g. lines
1122-1124): `comBuf[fi] = field fi (idx)`. -/
def packCorner (xf base idx : Nat) (F : Nat → Nat → ℚ) : List (Nat × ℚ) :=
  (List.range xf).map fun fi => (base + fi, F fi idx)

/-- One issued send of `CommSend`: direction, destination rank, element
count and `sendRequest` slot. -/
structure SendPost where
  dir : Dir
  toRank : Int
  count : Nat
  reqIdx : Nat
deriving DecidableEq, Repr

/-- Traversal state of `CommSend`: accumulated buffer writes into
`commDataSend`, sends issued so far, and the three message counters. -/
structure SendSt where
  writes : List (Nat × ℚ)
  sends : List SendPost
  pmsg : Nat
  emsg : Nat
  cmsg : Nat

/-- A contiguous plane-send branch of `CommSend` (lines 693-713 and
714-734): pack with a single gather loop at offset `pmsg * maxPlaneComm`,
issue the send on request slot `pmsg`, increment `pmsg`. -/
def sendFaceC (cond : Bool) (dir : Dir) (toRank : Int) (xf cnt : Nat)
    (srcIdx : Nat → Nat) (mpc : Nat) (F : Nat → Nat → ℚ) (s : SendSt) : SendSt :=
  if cond then
    { writes := s.writes ++ packWritesC xf cnt (s.pmsg * mpc) srcIdx F,
      sends := s.sends ++ [⟨dir, toRank, xf * cnt, s.pmsg⟩],
      pmsg := s.pmsg + 1, emsg := s.emsg, cmsg := s.cmsg }
  else s

/-- A nested (pencil/strided) face-send branch of `CommSend` (lines
740-762 etc.): pack with a doubly nested gather loop, then send. -/
def sendFaceN (cond : Bool) (dir : Dir) (toRank : Int) (xf n1 n2 cnt : Nat)
    (bufIdx srcIdx : Nat → Nat → Nat) (mpc : Nat) (F : Nat → Nat → ℚ)
    (s : SendSt) : SendSt :=
  if cond then
    { writes := s.writes ++ packWritesN xf n1 n2 cnt (s.pmsg * mpc) bufIdx srcIdx F,
      sends := s.sends ++ [⟨dir, toRank, xf * cnt, s.pmsg⟩],
      pmsg := s.pmsg + 1, emsg := s.emsg, cmsg := s.cmsg }
  else s

/-- An edge-send branch of `CommSend` (lines 840-861 etc.): pack a single
strided loop of length `len` at offset `pmsg*maxPlaneComm + emsg*maxEdgeComm`,
request slot `pmsg + emsg`, increment `emsg`. -/
def sendEdge (cond : Bool) (dir : Dir) (toRank : Int) (xf len : Nat)
    (srcIdx : Nat → Nat) (mpc mec : Nat) (F : Nat → Nat → ℚ) (s : SendSt) : SendSt :=
  if cond then
    { writes := s.writes ++ packWritesC xf len (s.pmsg * mpc + s.emsg * mec) srcIdx F,
      sends := s.sends ++ [⟨dir, toRank, xf * len, s.pmsg + s.emsg⟩],
      pmsg := s.pmsg, emsg := s.emsg + 1, cmsg := s.cmsg }
  else s

/-- A corner-send branch of `CommSend` (lines 1116-1134 etc.): pack the
`xferFields` corner values, request slot `pmsg + emsg + cmsg`,
increment `cmsg`. -/
def sendCorner (cond : Bool) (dir : Dir) (toRank : Int) (xf idx : Nat)
    (mpc mec pad : Nat) (F : Nat → Nat → ℚ) (s : SendSt) : SendSt :=
  if cond then
    { writes := s.writes ++
        packCorner xf (s.pmsg * mpc + s.emsg * mec + s.cmsg * pad) idx F,
      sends := s.sends ++ [⟨dir, toRank, xf, s.pmsg + s.emsg + s.cmsg⟩],
      pmsg := s.pmsg, emsg := s.emsg, cmsg := s.cmsg + 1 }
  else s

/-- The pack-and-send traversal of `CommSend` (lulesh-comm.cc lines
687-1275), with the six boundary flags hoisted as parameters.  Branch
order, conditions (including the `doSend` guards), destination ranks,
gather index maps and buffer offsets follow the source. -/
def commSendOps (mpc mec pad : Nat) (myRank : Int) (tp xf dx dy dz : Nat)
    (rm rM cm cM pm pM doSend planeOnly : Bool) (F : Nat → Nat → ℚ) : SendSt :=
  let s := SendSt.mk [] [] 0 0 0
  let s := sendFaceC pm ⟨0,0,-1⟩ (myRank - (tp:Int)*tp) xf (dx*dy)
    (fun i => i) mpc F s
  let s := sendFaceC (pM && doSend) ⟨0,0,1⟩ (myRank + (tp:Int)*tp) xf (dx*dy)
    (fun i => dx*dy*(dz - 1) + i) mpc F s
  let s := sendFaceN rm ⟨0,-1,0⟩ (myRank - (tp:Int)) xf dz dx (dx*dz)
    (fun i j => i*dx + j) (fun i j => i*dx*dy + j) mpc F s
  let s := sendFaceN (rM && doSend) ⟨0,1,0⟩ (myRank + (tp:Int)) xf dz dx (dx*dz)
    (fun i j => i*dx + j) (fun i j => dx*(dy - 1) + i*dx*dy + j) mpc F s
  let s := sendFaceN cm ⟨-1,0,0⟩ (myRank - 1) xf dz dy (dy*dz)
    (fun i j => i*dy + j) (fun i j => i*dx*dy + j*dx) mpc F s
  let s := sendFaceN (cM && doSend) ⟨1,0,0⟩ (myRank + 1) xf dz dy (dy*dz)
    (fun i j => i*dy + j) (fun i j => dx - 1 + i*dx*dy + j*dx) mpc F s
  if planeOnly then s else
  let s := sendEdge (rm && cm) ⟨-1,-1,0⟩ (myRank - (tp:Int) - 1) xf dz
    (fun i => i*dx*dy) mpc mec F s
  let s := sendEdge (rm && pm) ⟨0,-1,-1⟩ (myRank - (tp:Int)*tp - tp) xf dx
    (fun i => i) mpc mec F s
  let s := sendEdge (cm && pm) ⟨-1,0,-1⟩ (myRank - (tp:Int)*tp - 1) xf dy
    (fun i => i*dx) mpc mec F s
  let s := sendEdge (rM && cM && doSend) ⟨1,1,0⟩ (myRank + (tp:Int) + 1) xf dz
    (fun i => dx*dy - 1 + i*dx*dy) mpc mec F s
  let s := sendEdge (rM && pM && doSend) ⟨0,1,1⟩ (myRank + (tp:Int)*tp + tp) xf dx
    (fun i => dx*(dy-1) + dx*dy*(dz-1) + i) mpc mec F s
  let s := sendEdge (cM && pM && doSend) ⟨1,0,1⟩ (myRank + (tp:Int)*tp + 1) xf dy
    (fun i => dx*dy*(dz-1) + dx - 1 + i*dx) mpc mec F s
  let s := sendEdge (rM && cm && doSend) ⟨-1,1,0⟩ (myRank + (tp:Int) - 1) xf dz
    (fun i => dx*(dy-1) + i*dx*dy) mpc mec F s
  let s := sendEdge (rm && pM && doSend) ⟨0,-1,1⟩ (myRank + (tp:Int)*tp - tp) xf dx
    (fun i => dx*dy*(dz-1) + i) mpc mec F s
  let s := sendEdge (cm && pM && doSend) ⟨-1,0,1⟩ (myRank + (tp:Int)*tp - 1) xf dy
    (fun i => dx*dy*(dz-1) + i*dx) mpc mec F s
  let s := sendEdge (rm && cM) ⟨1,-1,0⟩ (myRank - (tp:Int) + 1) xf dz
    (fun i => dx - 1 + i*dx*dy) mpc mec F s
  let s := sendEdge (rM && pm) ⟨0,1,-1⟩ (myRank - (tp:Int)*tp + tp) xf dx
    (fun i => dx*(dy - 1) + i) mpc mec F s
  let s := sendEdge (cM && pm) ⟨1,0,-1⟩ (myRank - (tp:Int)*tp + 1) xf dy
    (fun i => dx - 1 + i*dx) mpc mec F s
  let s := sendCorner (rm && cm && pm) ⟨-1,-1,-1⟩ (myRank - (tp:Int)*tp - tp - 1)
    xf 0 mpc mec pad F s
  let s := sendCorner (rm && cm && pM && doSend) ⟨-1,-1,1⟩ (myRank + (tp:Int)*tp - tp - 1)
    xf (dx*dy*(dz - 1)) mpc mec pad F s
  let s := sendCorner (rm && cM && pm) ⟨1,-1,-1⟩ (myRank - (tp:Int)*tp - tp + 1)
    xf (dx - 1) mpc mec pad F s
  let s := sendCorner (rm && cM && pM && doSend) ⟨1,-1,1⟩ (myRank + (tp:Int)*tp - tp + 1)
    xf (dx*dy*(dz - 1) + (dx - 1)) mpc mec pad F s
  let s := sendCorner (rM && cm && pm) ⟨-1,1,-1⟩ (myRank - (tp:Int)*tp + tp - 1)
    xf (dx*(dy - 1)) mpc mec pad F s
  let s := sendCorner (rM && cm && pM && doSend) ⟨-1,1,1⟩ (myRank + (tp:Int)*tp + tp - 1)
    xf (dx*dy*(dz - 1) + dx*(dy - 1)) mpc mec pad F s
  let s := sendCorner (rM && cM && pm) ⟨1,1,-1⟩ (myRank - (tp:Int)*tp + tp + 1)
    xf (dx*dy - 1) mpc mec pad F s
  let s := sendCorner (rM && cM && pM && doSend) ⟨1,1,1⟩ (myRank + (tp:Int)*tp + tp + 1)
    xf (dx*dy*dz - 1) mpc mec pad F s
  s

/-- `CommSend` (lulesh-comm.cc lines 616-1286): early return when
`numRanks = 1`, otherwise compute the boundary flags from the logical grid
position and run the pack-and-send traversal. -/
def commSend (numRanks mps mes pad : Nat) (myRank : Int)
    (tp rowLoc colLoc planeLoc xf dx dy dz : Nat)
    (doSend planeOnly : Bool) (F : Nat → Nat → ℚ) : SendSt :=
  if numRanks = 1 then SendSt.mk [] [] 0 0 0
  else
    commSendOps (xf * mps) (xf * mes) pad myRank tp xf dx dy dz
      (rowMinF rowLoc) (rowMaxF rowLoc tp) (colMinF colLoc) (colMaxF colLoc tp)
      (planeMinF planeLoc) (planeMaxF planeLoc tp) doSend planeOnly F

/-- Projection of an issued send to its direction and destination rank. -/
def SendPost.dirRank (e : SendPost) : Dir × Int := (e.dir, e.toRank)

theorem sendFaceC_map_dirRank (cond : Bool) (d : Dir) (tr : Int) (xf cnt : Nat)
    (srcIdx : Nat → Nat) (mpc : Nat) (F : Nat → Nat → ℚ) (s : SendSt) :
    ((sendFaceC cond d tr xf cnt srcIdx mpc F s).sends).map SendPost.dirRank =
      s.sends.map SendPost.dirRank ++ (if cond then [(d, tr)] else []) := by
  by_cases h : cond <;> simp [sendFaceC, h, SendPost.dirRank]

theorem sendFaceN_map_dirRank (cond : Bool) (d : Dir) (tr : Int) (xf n1 n2 cnt : Nat)
    (bufIdx srcIdx : Nat → Nat → Nat) (mpc : Nat) (F : Nat → Nat → ℚ) (s : SendSt) :
    ((sendFaceN cond d tr xf n1 n2 cnt bufIdx srcIdx mpc F s).sends).map SendPost.dirRank =
      s.sends.map SendPost.dirRank ++ (if cond then [(d, tr)] else []) := by
  by_cases h : cond <;> simp [sendFaceN, h, SendPost.dirRank]

theorem sendEdge_map_dirRank (cond : Bool) (d : Dir) (tr : Int) (xf len : Nat)
    (srcIdx : Nat → Nat) (mpc mec : Nat) (F : Nat → Nat → ℚ) (s : SendSt) :
    ((sendEdge cond d tr xf len srcIdx mpc mec F s).sends).map SendPost.dirRank =
      s.sends.map SendPost.dirRank ++ (if cond then [(d, tr)] else []) := by
  by_cases h : cond <;> simp [sendEdge, h, SendPost.dirRank]

theorem sendCorner_map_dirRank (cond : Bool) (d : Dir) (tr : Int) (xf idx : Nat)
    (mpc mec pad : Nat) (F : Nat → Nat → ℚ) (s : SendSt) :
    ((sendCorner cond d tr xf idx mpc mec pad F s).sends).map SendPost.dirRank =
      s.sends.map SendPost.dirRank ++ (if cond then [(d, tr)] else []) := by
  by_cases h : cond <;> simp [sendCorner, h, SendPost.dirRank]

theorem commSendOps_rank_mem (mpc mec pad : Nat) (myRank : Int)
    (tp xf dx dy dz : Nat) (rm rM cm cM pm pM dS pO : Bool) (F : Nat → Nat → ℚ) :
    ∀ e ∈ (commSendOps mpc mec pad myRank tp xf dx dy dz
            rm rM cm cM pm pM dS pO F).sends,
      e.dir ∈ dirs26 ∧ e.toRank = myRank + rankOff e.dir tp := by
  intro e he
  have h2 : (e.dir, e.toRank) ∈
      ((commSendOps mpc mec pad myRank tp xf dx dy dz
        rm rM cm cM pm pM dS pO F).sends).map SendPost.dirRank :=
    List.mem_map_of_mem _ he
  by_cases hpo : pO
  · simp only [commSendOps, hpo, if_true,
      sendFaceC_map_dirRank, sendFaceN_map_dirRank, List.map_nil,
      List.nil_append, List.append_assoc,
      List.mem_append, List.mem_ite_nil_right, List.mem_singleton] at h2
    rcases h2 with ⟨-, hc⟩|⟨-, hc⟩|⟨-, hc⟩|⟨-, hc⟩|⟨-, hc⟩|⟨-, hc⟩ <;>
      (rw [Prod.mk.injEq] at hc; obtain ⟨hd, hr⟩ := hc;
       rw [hd, hr]; exact ⟨by decide, by simp [rankOff]; try ring⟩)
  · simp only [commSendOps, hpo, if_false, Bool.false_eq_true,
      sendFaceC_map_dirRank, sendFaceN_map_dirRank, sendEdge_map_dirRank,
      sendCorner_map_dirRank, List.map_nil, List.nil_append, List.append_assoc,
      List.mem_append, List.mem_ite_nil_right, List.mem_singleton] at h2
    rcases h2 with ⟨-, hc⟩|⟨-, hc⟩|⟨-, hc⟩|⟨-, hc⟩|⟨-, hc⟩|⟨-, hc⟩|⟨-, hc⟩|⟨-, hc⟩|
      ⟨-, hc⟩|⟨-, hc⟩|⟨-, hc⟩|⟨-, hc⟩|⟨-, hc⟩|⟨-, hc⟩|⟨-, hc⟩|⟨-, hc⟩|⟨-, hc⟩|
      ⟨-, hc⟩|⟨-, hc⟩|⟨-, hc⟩|⟨-, hc⟩|⟨-, hc⟩|⟨-, hc⟩|⟨-, hc⟩|⟨-, hc⟩|⟨-, hc⟩ <;>
      (rw [Prod.mk.injEq] at hc; obtain ⟨hd, hr⟩ := hc;
       rw [hd, hr]; exact ⟨by decide, by simp [rankOff]; try ring⟩)

/-- C5: for every receive posted by `CommRecv` and every send issued by
`CommSend`, the peer rank is `myRank + dz·tp² + dy·tp + dx`, where
`(dx, dy, dz)` are the direction's signed (col, row, plane) components. -/
theorem comm_neighbor_rank_formula
    (numRanks mps mes pad : Nat) (myRank : Int)
    (tp rowLoc colLoc planeLoc xf dx dy dz : Nat)
    (doRecv doSend planeOnly : Bool) (F : Nat → Nat → ℚ) :
    (∀ e ∈ (commRecv numRanks mps mes pad myRank tp rowLoc colLoc planeLoc
        xf dx dy dz doRecv planeOnly).posts,
      e.fromRank = myRank + rankOff e.dir tp) ∧
    (∀ e ∈ (commSend numRanks mps mes pad myRank tp rowLoc colLoc planeLoc
        xf dx dy dz doSend planeOnly F).sends,
      e.toRank = myRank + rankOff e.dir tp) := by
  constructor
  · intro e he
    unfold commRecv at he
    by_cases hn : numRanks = 1
    · rw [if_pos hn] at he; simp at he
    · rw [if_neg hn] at he
      exact (commRecvPosts_rank_mem _ _ _ _ _ _ _ _ _ _ _ _ _ _ _ _ _ e he).2
  · intro e he
    unfold commSend at he
    by_cases hn : numRanks = 1
    · rw [if_pos hn] at he; simp at he
    · rw [if_neg hn] at he
      exact (commSendOps_rank_mem _ _ _ _ _ _ _ _ _ _ _ _ _ _ _ _ _ _ e he).2

/-- Concrete witness for `comm_neighbor_rank_formula`. -/
theorem comm_neighbor_rank_formula_witness :
    (∀ e ∈ (commRecv 27 5 3 4 13 3 1 1 1 6 3 3 3 true false).posts,
      e.fromRank = 13 + rankOff e.dir 3) ∧
    (∀ e ∈ (commSend 27 5 3 4 13 3 1 1 1 6 3 3 3 true false
        (fun _ _ => 0)).sends,
      e.toRank = 13 + rankOff e.dir 3) :=
  comm_neighbor_rank_formula 27 5 3 4 13 3 1 1 1 6 3 3 3 true true false
    (fun _ _ => 0)

/-- A direction is lexicographically negative in (plane, row, col) order;
these are exactly the directions whose receives carry a `doRecv` guard in
the source. -/
def lexNeg (d : Dir) : Bool :=
  decide (d.z < 0) ||
    (decide (d.z = 0) &&
      (decide (d.y < 0) || (decide (d.y = 0) && decide (d.x < 0))))

/-- A direction is lexicographically positive in (plane, row, col) order;
these are exactly the directions whose sends carry a `doSend` guard. -/
def lexPos (d : Dir) : Bool :=
  decide (0 < d.z) ||
    (decide (d.z = 0) &&
      (decide (0 < d.y) || (decide (d.y = 0) && decide (0 < d.x))))

/-- The boundary-flag conjunction a direction's branch tests. -/
def flagCond (rm rM cm cM pm pM : Bool) (d : Dir) : Bool :=
  (if d.y = -1 then rm else true) && (if d.y = 1 then rM else true) &&
  (if d.x = -1 then cm else true) && (if d.x = 1 then cM else true) &&
  (if d.z = -1 then pm else true) && (if d.z = 1 then pM else true)

/-- A face direction (exactly one nonzero component). -/
def isFace (d : Dir) : Bool :=
  decide (((if d.x = 0 then 0 else 1) + (if d.y = 0 then 0 else 1) +
    (if d.z = 0 then 0 else 1) : Nat) = 1)

/-- Characterization of the set of directions `CommRecv` posts a receive
for: the branch flags hold, lexicographically negative directions need
`doRecv`, and under `planeOnly` only faces are posted. -/
def recvCond (rm rM cm cM pm pM dR pO : Bool) (d : Dir) : Bool :=
  flagCond rm rM cm cM pm pM d && (dR || !lexNeg d) && (!pO || isFace d)

/-- Characterization of the set of directions `CommSend` sends along:
lexicographically positive directions need `doSend`. -/
def sendCond (rm rM cm cM pm pM dS pO : Bool) (d : Dir) : Bool :=
  flagCond rm rM cm cM pm pM d && (dS || !lexPos d) && (!pO || isFace d)

theorem recvPlane_map_dir (cond : Bool) (d0 : Dir) (fr : Int) (cnt mpc : Nat)
    (s : RecvSt) :
    ((recvPlane cond d0 fr cnt mpc s).posts).map RecvPost.dir =
      s.posts.map RecvPost.dir ++ (if cond then [d0] else []) := by
  by_cases h : cond <;> simp [recvPlane, h]

theorem recvEdge_map_dir (cond : Bool) (d0 : Dir) (fr : Int) (cnt mpc mec : Nat)
    (s : RecvSt) :
    ((recvEdge cond d0 fr cnt mpc mec s).posts).map RecvPost.dir =
      s.posts.map RecvPost.dir ++ (if cond then [d0] else []) := by
  by_cases h : cond <;> simp [recvEdge, h]

theorem recvCorner_map_dir (cond : Bool) (d0 : Dir) (fr : Int) (cnt mpc mec pad : Nat)
    (s : RecvSt) :
    ((recvCorner cond d0 fr cnt mpc mec pad s).posts).map RecvPost.dir =
      s.posts.map RecvPost.dir ++ (if cond then [d0] else []) := by
  by_cases h : cond <;> simp [recvCorner, h]

theorem sendFaceC_map_dir (cond : Bool) (d0 : Dir) (tr : Int) (xf cnt : Nat)
    (srcIdx : Nat → Nat) (mpc : Nat) (F : Nat → Nat → ℚ) (s : SendSt) :
    ((sendFaceC cond d0 tr xf cnt srcIdx mpc F s).sends).map SendPost.dir =
      s.sends.map SendPost.dir ++ (if cond then [d0] else []) := by
  by_cases h : cond <;> simp [sendFaceC, h]

theorem sendFaceN_map_dir (cond : Bool) (d0 : Dir) (tr : Int) (xf n1 n2 cnt : Nat)
    (bufIdx srcIdx : Nat → Nat → Nat) (mpc : Nat) (F : Nat → Nat → ℚ) (s : SendSt) :
    ((sendFaceN cond d0 tr xf n1 n2 cnt bufIdx srcIdx mpc F s).sends).map SendPost.dir =
      s.sends.map SendPost.dir ++ (if cond then [d0] else []) := by
  by_cases h : cond <;> simp [sendFaceN, h]

theorem sendEdge_map_dir (cond : Bool) (d0 : Dir) (tr : Int) (xf len : Nat)
    (srcIdx : Nat → Nat) (mpc mec : Nat) (F : Nat → Nat → ℚ) (s : SendSt) :
    ((sendEdge cond d0 tr xf len srcIdx mpc mec F s).sends).map SendPost.dir =
      s.sends.map SendPost.dir ++ (if cond then [d0] else []) := by
  by_cases h : cond <;> simp [sendEdge, h]

theorem sendCorner_map_dir (cond : Bool) (d0 : Dir) (tr : Int) (xf idx : Nat)
    (mpc mec pad : Nat) (F : Nat → Nat → ℚ) (s : SendSt) :
    ((sendCorner cond d0 tr xf idx mpc mec pad F s).sends).map SendPost.dir =
      s.sends.map SendPost.dir ++ (if cond then [d0] else []) := by
  by_cases h : cond <;> simp [sendCorner, h]

set_option maxHeartbeats 1000000 in
theorem mem_recvDirs_iff (mpc mec pad : Nat) (myRank : Int) (tp xf dx dy dz : Nat)
    (rm rM cm cM pm pM dR pO : Bool) (d : Dir) (hd : d ∈ dirs26) :
    d ∈ ((commRecvPosts mpc mec pad myRank tp xf dx dy dz
          rm rM cm cM pm pM dR pO).posts).map RecvPost.dir ↔
      recvCond rm rM cm cM pm pM dR pO d = true := by
  simp only [dirs26, List.mem_cons, List.not_mem_nil, or_false] at hd
  by_cases hpo : pO
  · simp only [commRecvPosts, hpo, if_true,
      recvPlane_map_dir, recvEdge_map_dir, recvCorner_map_dir,
      List.map_nil, List.nil_append, List.append_assoc,
      List.mem_append, List.mem_ite_nil_right, List.mem_singleton]
    rcases hd with rfl|rfl|rfl|rfl|rfl|rfl|rfl|rfl|rfl|rfl|rfl|rfl|rfl|
      rfl|rfl|rfl|rfl|rfl|rfl|rfl|rfl|rfl|rfl|rfl|rfl|rfl <;>
      (simp [recvCond, flagCond, lexNeg, isFace, Dir.mk.injEq]; try tauto)
  · simp only [commRecvPosts, hpo, if_false, Bool.false_eq_true,
      recvPlane_map_dir, recvEdge_map_dir, recvCorner_map_dir,
      List.map_nil, List.nil_append, List.append_assoc,
      List.mem_append, List.mem_ite_nil_right, List.mem_singleton]
    rcases hd with rfl|rfl|rfl|rfl|rfl|rfl|rfl|rfl|rfl|rfl|rfl|rfl|rfl|
      rfl|rfl|rfl|rfl|rfl|rfl|rfl|rfl|rfl|rfl|rfl|rfl|rfl <;>
      (simp [recvCond, flagCond, lexNeg, isFace, Dir.mk.injEq]; try tauto)

set_option maxHeartbeats 1000000 in
theorem mem_sendDirs_iff (mpc mec pad : Nat) (myRank : Int) (tp xf dx dy dz : Nat)
    (rm rM cm cM pm pM dS pO : Bool) (F : Nat → Nat → ℚ) (d : Dir) (hd : d ∈ dirs26) :
    d ∈ ((commSendOps mpc mec pad myRank tp xf dx dy dz
          rm rM cm cM pm pM dS pO F).sends).map SendPost.dir ↔
      sendCond rm rM cm cM pm pM dS pO d = true := by
  simp only [dirs26, List.mem_cons, List.not_mem_nil, or_false] at hd
  by_cases hpo : pO
  · simp only [commSendOps, hpo, if_true,
      sendFaceC_map_dir, sendFaceN_map_dir, sendEdge_map_dir, sendCorner_map_dir,
      List.map_nil, List.nil_append, List.append_assoc,
      List.mem_append, List.mem_ite_nil_right, List.mem_singleton]
    rcases hd with rfl|rfl|rfl|rfl|rfl|rfl|rfl|rfl|rfl|rfl|rfl|rfl|rfl|
      rfl|rfl|rfl|rfl|rfl|rfl|rfl|rfl|rfl|rfl|rfl|rfl|rfl <;>
      (simp [sendCond, flagCond, lexPos, isFace, Dir.mk.injEq]; try tauto)
  · simp only [commSendOps, hpo, if_false, Bool.false_eq_true,
      sendFaceC_map_dir, sendFaceN_map_dir, sendEdge_map_dir, sendCorner_map_dir,
      List.map_nil, List.nil_append, List.append_assoc,
      List.mem_append, List.mem_ite_nil_right, List.mem_singleton]
    rcases hd with rfl|rfl|rfl|rfl|rfl|rfl|rfl|rfl|rfl|rfl|rfl|rfl|rfl|
      rfl|rfl|rfl|rfl|rfl|rfl|rfl|rfl|rfl|rfl|rfl|rfl|rfl <;>
      (simp [sendCond, flagCond, lexPos, isFace, Dir.mk.injEq]; try tauto)

theorem rankOff_pos_of_not_lexNeg (tp : Nat) (htp : 2 ≤ tp) (d : Dir)
    (hd : d ∈ dirs26) (h : lexNeg d = false) : 0 < rankOff d tp := by
  have h2 : (2:Int) ≤ (tp:Int) := by exact_mod_cast htp
  have h3 : (0:Int) ≤ ((tp:Int) - 2) * (tp:Int) := by nlinarith
  simp only [dirs26, List.mem_cons, List.not_mem_nil, or_false] at hd
  rcases hd with rfl|rfl|rfl|rfl|rfl|rfl|rfl|rfl|rfl|rfl|rfl|rfl|rfl|
    rfl|rfl|rfl|rfl|rfl|rfl|rfl|rfl|rfl|rfl|rfl|rfl|rfl <;>
    simp [lexNeg] at h <;> simp [rankOff] <;> nlinarith

theorem rankOff_neg_of_lexNeg (tp : Nat) (htp : 2 ≤ tp) (d : Dir)
    (hd : d ∈ dirs26) (h : lexNeg d = true) : rankOff d tp < 0 := by
  have h2 : (2:Int) ≤ (tp:Int) := by exact_mod_cast htp
  have h3 : (0:Int) ≤ ((tp:Int) - 2) * (tp:Int) := by nlinarith
  simp only [dirs26, List.mem_cons, List.not_mem_nil, or_false] at hd
  rcases hd with rfl|rfl|rfl|rfl|rfl|rfl|rfl|rfl|rfl|rfl|rfl|rfl|rfl|
    rfl|rfl|rfl|rfl|rfl|rfl|rfl|rfl|rfl|rfl|rfl|rfl|rfl <;>
    simp [lexNeg] at h <;> simp [rankOff] <;> nlinarith

theorem lexNeg_neg_eq (d : Dir) (hd : d ∈ dirs26) :
    lexNeg (Dir.neg d) = lexPos d := by
  fin_cases hd <;> rfl

theorem lexPos_eq_not_lexNeg (d : Dir) (hd : d ∈ dirs26) :
    lexPos d = !lexNeg d := by
  fin_cases hd <;> rfl

/-- C9 (amended): for `tp ≥ 2`, the mask flags partition transfers by rank
order.  With `doRecv = false`, every receive `CommRecv` still posts comes
from a strictly higher rank; a receive posted with `doRecv = true` whose
direction is absent with `doRecv = false` would have come from a strictly
lower rank.  With `doSend = false`, every send `CommSend` still issues
goes to a strictly lower rank; a send issued with `doSend = true` whose
direction is absent with `doSend = false` would have gone to a strictly
higher rank.  Hence with both flags false the surviving traffic carries
data from higher ranks to lower ranks — NOT from lower ranks to higher
ranks as originally claimed; see `comm_mask_flow_direction_cex`. -/
theorem comm_mask_rank_order
    (numRanks mps mes pad : Nat) (myRank : Int)
    (tp rowLoc colLoc planeLoc xf dx dy dz : Nat)
    (hn : numRanks ≠ 1) (htp : 2 ≤ tp) (pO : Bool) (F : Nat → Nat → ℚ) :
    (∀ e ∈ (commRecv numRanks mps mes pad myRank tp rowLoc colLoc planeLoc
        xf dx dy dz false pO).posts, myRank < e.fromRank) ∧
    (∀ e ∈ (commRecv numRanks mps mes pad myRank tp rowLoc colLoc planeLoc
        xf dx dy dz true pO).posts,
      (e.dir ∈ ((commRecv numRanks mps mes pad myRank tp rowLoc colLoc planeLoc
          xf dx dy dz false pO).posts).map RecvPost.dir → myRank < e.fromRank) ∧
      (e.dir ∉ ((commRecv numRanks mps mes pad myRank tp rowLoc colLoc planeLoc
          xf dx dy dz false pO).posts).map RecvPost.dir → e.fromRank < myRank)) ∧
    (∀ e ∈ (commSend numRanks mps mes pad myRank tp rowLoc colLoc planeLoc
        xf dx dy dz false pO F).sends, e.toRank < myRank) ∧
    (∀ e ∈ (commSend numRanks mps mes pad myRank tp rowLoc colLoc planeLoc
        xf dx dy dz true pO F).sends,
      (e.dir ∈ ((commSend numRanks mps mes pad myRank tp rowLoc colLoc planeLoc
          xf dx dy dz false pO F).sends).map SendPost.dir → e.toRank < myRank) ∧
      (e.dir ∉ ((commSend numRanks mps mes pad myRank tp rowLoc colLoc planeLoc
          xf dx dy dz false pO F).sends).map SendPost.dir → myRank < e.toRank)) := by
  simp only [commRecv, commSend, if_neg hn]
  refine ⟨?_, ?_, ?_, ?_⟩
  · intro e he
    obtain ⟨hd26, hrank⟩ := commRecvPosts_rank_mem _ _ _ _ _ _ _ _ _ _ _ _ _ _ _
      false pO e he
    have hdm := List.mem_map_of_mem RecvPost.dir he
    have hrc := (mem_recvDirs_iff _ _ _ _ _ _ _ _ _ _ _ _ _ _ _ false pO
      e.dir hd26).mp hdm
    simp only [recvCond, Bool.and_eq_true, Bool.or_eq_true, Bool.not_eq_true',
      Bool.false_eq_true, false_or] at hrc
    rw [hrank]
    linarith [rankOff_pos_of_not_lexNeg tp htp e.dir hd26 hrc.1.2]
  · intro e he
    obtain ⟨hd26, hrank⟩ := commRecvPosts_rank_mem _ _ _ _ _ _ _ _ _ _ _ _ _ _ _
      true pO e he
    constructor
    · intro hmem
      have hrc := (mem_recvDirs_iff _ _ _ _ _ _ _ _ _ _ _ _ _ _ _ false pO
        e.dir hd26).mp hmem
      simp only [recvCond, Bool.and_eq_true, Bool.or_eq_true, Bool.not_eq_true',
        Bool.false_eq_true, false_or] at hrc
      rw [hrank]
      linarith [rankOff_pos_of_not_lexNeg tp htp e.dir hd26 hrc.1.2]
    · intro hnm
      by_cases hl : lexNeg e.dir = true
      · rw [hrank]
        linarith [rankOff_neg_of_lexNeg tp htp e.dir hd26 hl]
      · exfalso
        apply hnm
        rw [mem_recvDirs_iff _ _ _ _ _ _ _ _ _ _ _ _ _ _ _ false pO e.dir hd26]
        have hrc := (mem_recvDirs_iff _ _ _ _ _ _ _ _ _ _ _ _ _ _ _ true pO
          e.dir hd26).mp (List.mem_map_of_mem RecvPost.dir he)
        simp only [recvCond, Bool.and_eq_true, Bool.or_eq_true, Bool.not_eq_true',
          Bool.false_eq_true, false_or] at hrc ⊢
        rw [Bool.not_eq_true] at hl
        exact ⟨⟨hrc.1.1, hl⟩, hrc.2⟩
  · intro e he
    obtain ⟨hd26, hrank⟩ := commSendOps_rank_mem _ _ _ _ _ _ _ _ _ _ _ _ _ _ _
      false pO _ e he
    have hdm := List.mem_map_of_mem SendPost.dir he
    have hsc := (mem_sendDirs_iff _ _ _ _ _ _ _ _ _ _ _ _ _ _ _ false pO _
      e.dir hd26).mp hdm
    simp only [sendCond, Bool.and_eq_true, Bool.or_eq_true, Bool.not_eq_true',
      Bool.false_eq_true, false_or] at hsc
    have hlp : lexNeg e.dir = true := by
      have := lexPos_eq_not_lexNeg e.dir hd26
      rw [hsc.1.2] at this
      cases hln : lexNeg e.dir
      · rw [hln] at this; simp at this
      · rfl
    rw [hrank]
    linarith [rankOff_neg_of_lexNeg tp htp e.dir hd26 hlp]
  · intro e he
    obtain ⟨hd26, hrank⟩ := commSendOps_rank_mem _ _ _ _ _ _ _ _ _ _ _ _ _ _ _
      true pO _ e he
    constructor
    · intro hmem
      have hsc := (mem_sendDirs_iff _ _ _ _ _ _ _ _ _ _ _ _ _ _ _ false pO _
        e.dir hd26).mp hmem
      simp only [sendCond, Bool.and_eq_true, Bool.or_eq_true, Bool.not_eq_true',
        Bool.false_eq_true, false_or] at hsc
      have hlp : lexNeg e.dir = true := by
        have := lexPos_eq_not_lexNeg e.dir hd26
        rw [hsc.1.2] at this
        cases hln : lexNeg e.dir
        · rw [hln] at this; simp at this
        · rfl
      rw [hrank]
      linarith [rankOff_neg_of_lexNeg tp htp e.dir hd26 hlp]
    · intro hnm
      by_cases hl : lexPos e.dir = true
      · have hln : lexNeg e.dir = false := by
          have := lexPos_eq_not_lexNeg e.dir hd26
          rw [hl] at this
          cases hln2 : lexNeg e.dir
          · rfl
          · rw [hln2] at this; simp at this
        rw [hrank]
        linarith [rankOff_pos_of_not_lexNeg tp htp e.dir hd26 hln]
      · exfalso
        apply hnm
        rw [mem_sendDirs_iff _ _ _ _ _ _ _ _ _ _ _ _ _ _ _ false pO _ e.dir hd26]
        have hsc := (mem_sendDirs_iff _ _ _ _ _ _ _ _ _ _ _ _ _ _ _ true pO _
          e.dir hd26).mp (List.mem_map_of_mem SendPost.dir he)
        simp only [sendCond, Bool.and_eq_true, Bool.or_eq_true, Bool.not_eq_true',
          Bool.false_eq_true, false_or] at hsc ⊢
        rw [Bool.not_eq_true] at hl
        exact ⟨⟨hsc.1.1, hl⟩, hsc.2⟩

/-- Concrete witness for `comm_mask_rank_order`. -/
theorem comm_mask_rank_order_witness :
    (∀ e ∈ (commRecv 8 1 1 1 (3:Int) 2 1 1 1 6 2 2 2 false false).posts,
        (3:Int) < e.fromRank) ∧
    (∀ e ∈ (commRecv 8 1 1 1 (3:Int) 2 1 1 1 6 2 2 2 true false).posts,
      (e.dir ∈ ((commRecv 8 1 1 1 (3:Int) 2 1 1 1 6 2 2 2
          false false).posts).map RecvPost.dir → (3:Int) < e.fromRank) ∧
      (e.dir ∉ ((commRecv 8 1 1 1 (3:Int) 2 1 1 1 6 2 2 2
          false false).posts).map RecvPost.dir → e.fromRank < 3)) ∧
    (∀ e ∈ (commSend 8 1 1 1 (3:Int) 2 1 1 1 6 2 2 2 false false
        (fun _ _ => 0)).sends, e.toRank < 3) ∧
    (∀ e ∈ (commSend 8 1 1 1 (3:Int) 2 1 1 1 6 2 2 2 true false
        (fun _ _ => 0)).sends,
      (e.dir ∈ ((commSend 8 1 1 1 (3:Int) 2 1 1 1 6 2 2 2 false false
          (fun _ _ => 0)).sends).map SendPost.dir → e.toRank < 3) ∧
      (e.dir ∉ ((commSend 8 1 1 1 (3:Int) 2 1 1 1 6 2 2 2 false false
          (fun _ _ => 0)).sends).map SendPost.dir → (3:Int) < e.toRank)) :=
  comm_mask_rank_order 8 1 1 1 3 2 1 1 1 6 2 2 2 (by decide) (by decide)
    false (fun _ _ => 0)

/-- Every direction whose receive branch condition holds contributes a
posted receive, carrying the neighbor-rank formula. -/
theorem recvDir_exists_of_cond (mpc mec pad : Nat) (myRank : Int)
    (tp xf dx dy dz : Nat) (rm rM cm cM pm pM dR pO : Bool)
    (d : Dir) (hd : d ∈ dirs26)
    (hc : recvCond rm rM cm cM pm pM dR pO d = true) :
    ∃ e ∈ (commRecvPosts mpc mec pad myRank tp xf dx dy dz
        rm rM cm cM pm pM dR pO).posts,
      e.dir = d ∧ e.fromRank = myRank + rankOff d tp := by
  have hmem := (mem_recvDirs_iff mpc mec pad myRank tp xf dx dy dz
      rm rM cm cM pm pM dR pO d hd).mpr hc
  obtain ⟨e, he, hedir⟩ := List.mem_map.mp hmem
  obtain ⟨-, hrank⟩ := commRecvPosts_rank_mem mpc mec pad myRank tp xf dx dy dz
      rm rM cm cM pm pM dR pO e he
  exact ⟨e, he, hedir, by rw [hrank, hedir]⟩

/-- Every direction whose send branch condition holds contributes an
issued send, carrying the neighbor-rank formula. -/
theorem sendDir_exists_of_cond (mpc mec pad : Nat) (myRank : Int)
    (tp xf dx dy dz : Nat) (rm rM cm cM pm pM dS pO : Bool)
    (F : Nat → Nat → ℚ) (d : Dir) (hd : d ∈ dirs26)
    (hc : sendCond rm rM cm cM pm pM dS pO d = true) :
    ∃ e ∈ (commSendOps mpc mec pad myRank tp xf dx dy dz
        rm rM cm cM pm pM dS pO F).sends,
      e.dir = d ∧ e.toRank = myRank + rankOff d tp := by
  have hmem := (mem_sendDirs_iff mpc mec pad myRank tp xf dx dy dz
      rm rM cm cM pm pM dS pO F d hd).mpr hc
  obtain ⟨e, he, hedir⟩ := List.mem_map.mp hmem
  obtain ⟨-, hrank⟩ := commSendOps_rank_mem mpc mec pad myRank tp xf dx dy dz
      rm rM cm cM pm pM dS pO F e he
  exact ⟨e, he, hedir, by rw [hrank, hedir]⟩

/-- C9 counterexample: the original claim's conclusion — that with both
mask flags false data flows only from lower ranks to higher ranks — is
false.  At the interior position (1,1,1) of a 3×3×3 rank grid (rank 13,
all six boundary flags set), `CommSend` with `doSend = false` still
issues a send whose destination rank 12 lies strictly BELOW 13 (the
colMin branch is unguarded), and `CommRecv` with `doRecv = false` still
posts a receive whose source rank 14 lies strictly ABOVE 13 (the colMax
branch is unguarded): the surviving transfers move data from higher ranks
to lower ranks. -/
theorem comm_mask_flow_direction_cex :
    (∃ e ∈ (commSend 27 1 1 1 (13:Int) 3 1 1 1 6 2 2 2 false false
        (fun _ _ => 0)).sends, e.toRank < 13) ∧
    (∃ e ∈ (commRecv 27 1 1 1 (13:Int) 3 1 1 1 6 2 2 2 false false).posts,
      (13:Int) < e.fromRank) := by
  constructor
  · obtain ⟨e, he, hdir, hrank⟩ := sendDir_exists_of_cond 6 6 1 13 3 6 2 2 2
      true true true true true true false false (fun _ _ => 0) ⟨-1,0,0⟩
      (by decide) (by decide)
    exact ⟨e, he, by rw [hrank]; decide⟩
  · obtain ⟨e, he, hdir, hrank⟩ := recvDir_exists_of_cond 6 6 1 13 3 6 2 2 2
      true true true true true true false false ⟨1,0,0⟩
      (by decide) (by decide)
    exact ⟨e, he, by rw [hrank]; decide⟩

theorem lexPos_neg_eq (d : Dir) (hd : d ∈ dirs26) :
    lexPos (Dir.neg d) = lexNeg d := by
  fin_cases hd <;> rfl

theorem neg_mem_dirs26 (d : Dir) (hd : d ∈ dirs26) : Dir.neg d ∈ dirs26 := by
  fin_cases hd <;> decide

theorem flagCond_of_inGrid (rowLoc colLoc planeLoc tp : Nat) (d : Dir)
    (hd : d ∈ dirs26)
    (h1 : 0 ≤ (rowLoc:Int) + d.y) (h2 : (rowLoc:Int) + d.y < tp)
    (h3 : 0 ≤ (colLoc:Int) + d.x) (h4 : (colLoc:Int) + d.x < tp)
    (h5 : 0 ≤ (planeLoc:Int) + d.z) (h6 : (planeLoc:Int) + d.z < tp) :
    flagCond (rowMinF rowLoc) (rowMaxF rowLoc tp) (colMinF colLoc)
      (colMaxF colLoc tp) (planeMinF planeLoc) (planeMaxF planeLoc tp) d = true := by
  simp only [dirs26, List.mem_cons, List.not_mem_nil, or_false] at hd
  rcases hd with rfl|rfl|rfl|rfl|rfl|rfl|rfl|rfl|rfl|rfl|rfl|rfl|rfl|
    rfl|rfl|rfl|rfl|rfl|rfl|rfl|rfl|rfl|rfl|rfl|rfl|rfl <;>
    simp only [flagCond] at * <;>
    simp [Bool.and_eq_true, rowMinF_iff, rowMaxF_iff, colMinF_iff, colMaxF_iff,
      planeMinF_iff, planeMaxF_iff] at * <;>
    omega

/-- C2: on a grid with two adjacent domains A and B (B = A + d), under the
symmetric masked protocol (`doSend = false` at both senders, `doRecv =
false` at both receivers) exactly one of {A sends along d and B posts the
matching receive} or {B sends along -d and A posts the matching receive}
is active; moreover a direction's send is suppressed at A exactly when the
opposite direction's receive is suppressed at B. -/
theorem comm_exactly_once_per_pair
    (numRanks mps mes pad : Nat) (myRankA myRankB : Int)
    (tp rA cA pA rB cB pB xf dx dy dz : Nat) (d : Dir)
    (F G : Nat → Nat → ℚ)
    (hn : numRanks ≠ 1) (hd : d ∈ dirs26)
    (hA : rA < tp ∧ cA < tp ∧ pA < tp)
    (hB : rB < tp ∧ cB < tp ∧ pB < tp)
    (hadj : (rB:Int) = rA + d.y ∧ (cB:Int) = cA + d.x ∧ (pB:Int) = pA + d.z) :
    Xor'
      (d ∈ ((commSend numRanks mps mes pad myRankA tp rA cA pA xf dx dy dz
          false false F).sends).map SendPost.dir ∧
       Dir.neg d ∈ ((commRecv numRanks mps mes pad myRankB tp rB cB pB xf dx dy dz
          false false).posts).map RecvPost.dir)
      (Dir.neg d ∈ ((commSend numRanks mps mes pad myRankB tp rB cB pB xf dx dy dz
          false false G).sends).map SendPost.dir ∧
       d ∈ ((commRecv numRanks mps mes pad myRankA tp rA cA pA xf dx dy dz
          false false).posts).map RecvPost.dir) ∧
    ((d ∈ ((commSend numRanks mps mes pad myRankA tp rA cA pA xf dx dy dz
          true false F).sends).map SendPost.dir ∧
      d ∉ ((commSend numRanks mps mes pad myRankA tp rA cA pA xf dx dy dz
          false false F).sends).map SendPost.dir) ↔
     (Dir.neg d ∈ ((commRecv numRanks mps mes pad myRankB tp rB cB pB xf dx dy dz
          true false).posts).map RecvPost.dir ∧
      Dir.neg d ∉ ((commRecv numRanks mps mes pad myRankB tp rB cB pB xf dx dy dz
          false false).posts).map RecvPost.dir)) := by
  have hd26n : Dir.neg d ∈ dirs26 := neg_mem_dirs26 d hd
  have hfA : flagCond (rowMinF rA) (rowMaxF rA tp) (colMinF cA) (colMaxF cA tp)
      (planeMinF pA) (planeMaxF pA tp) d = true := by
    refine flagCond_of_inGrid rA cA pA tp d hd ?_ ?_ ?_ ?_ ?_ ?_ <;> omega
  have hfB : flagCond (rowMinF rB) (rowMaxF rB tp) (colMinF cB) (colMaxF cB tp)
      (planeMinF pB) (planeMaxF pB tp) (Dir.neg d) = true := by
    refine flagCond_of_inGrid rB cB pB tp (Dir.neg d) hd26n ?_ ?_ ?_ ?_ ?_ ?_ <;>
      (simp only [Dir.neg]; omega)
  simp only [commRecv, commSend, if_neg hn]
  rw [mem_sendDirs_iff (xf * mps) (xf * mes) pad myRankA tp xf dx dy dz
    (rowMinF rA) (rowMaxF rA tp) (colMinF cA) (colMaxF cA tp)
    (planeMinF pA) (planeMaxF pA tp) false false F d hd]
  rw [mem_sendDirs_iff (xf * mps) (xf * mes) pad myRankA tp xf dx dy dz
    (rowMinF rA) (rowMaxF rA tp) (colMinF cA) (colMaxF cA tp)
    (planeMinF pA) (planeMaxF pA tp) true false F d hd]
  rw [mem_recvDirs_iff (xf * mps) (xf * mes) pad myRankA tp xf dx dy dz
    (rowMinF rA) (rowMaxF rA tp) (colMinF cA) (colMaxF cA tp)
    (planeMinF pA) (planeMaxF pA tp) false false d hd]
  rw [mem_sendDirs_iff (xf * mps) (xf * mes) pad myRankB tp xf dx dy dz
    (rowMinF rB) (rowMaxF rB tp) (colMinF cB) (colMaxF cB tp)
    (planeMinF pB) (planeMaxF pB tp) false false G (Dir.neg d) hd26n]
  rw [mem_recvDirs_iff (xf * mps) (xf * mes) pad myRankB tp xf dx dy dz
    (rowMinF rB) (rowMaxF rB tp) (colMinF cB) (colMaxF cB tp)
    (planeMinF pB) (planeMaxF pB tp) false false (Dir.neg d) hd26n]
  rw [mem_recvDirs_iff (xf * mps) (xf * mes) pad myRankB tp xf dx dy dz
    (rowMinF rB) (rowMaxF rB tp) (colMinF cB) (colMaxF cB tp)
    (planeMinF pB) (planeMaxF pB tp) true false (Dir.neg d) hd26n]
  simp only [sendCond, recvCond, hfA, hfB, lexNeg_neg_eq d hd, lexPos_neg_eq d hd,
    lexPos_eq_not_lexNeg d hd, Bool.true_and, Bool.and_true, Bool.not_false,
    Bool.or_true, Bool.true_or, Bool.false_or, Bool.or_false]
  cases hln : lexNeg d <;> simp [Xor']

/-- Concrete witness for `comm_exactly_once_per_pair`: a 2×1×1-style pair
inside a 2×2×2 grid, exchanging along the column axis. -/
theorem comm_exactly_once_per_pair_witness :
    Xor'
      (Dir.mk 1 0 0 ∈ ((commSend 8 1 1 1 (0:Int) 2 0 0 0 6 2 2 2
          false false (fun _ _ => 0)).sends).map SendPost.dir ∧
       Dir.neg (Dir.mk 1 0 0) ∈ ((commRecv 8 1 1 1 (1:Int) 2 0 1 0 6 2 2 2
          false false).posts).map RecvPost.dir)
      (Dir.neg (Dir.mk 1 0 0) ∈ ((commSend 8 1 1 1 (1:Int) 2 0 1 0 6 2 2 2
          false false (fun _ _ => 0)).sends).map SendPost.dir ∧
       Dir.mk 1 0 0 ∈ ((commRecv 8 1 1 1 (0:Int) 2 0 0 0 6 2 2 2
          false false).posts).map RecvPost.dir) ∧
    ((Dir.mk 1 0 0 ∈ ((commSend 8 1 1 1 (0:Int) 2 0 0 0 6 2 2 2
          true false (fun _ _ => 0)).sends).map SendPost.dir ∧
      Dir.mk 1 0 0 ∉ ((commSend 8 1 1 1 (0:Int) 2 0 0 0 6 2 2 2
          false false (fun _ _ => 0)).sends).map SendPost.dir) ↔
     (Dir.neg (Dir.mk 1 0 0) ∈ ((commRecv 8 1 1 1 (1:Int) 2 0 1 0 6 2 2 2
          true false).posts).map RecvPost.dir ∧
      Dir.neg (Dir.mk 1 0 0) ∉ ((commRecv 8 1 1 1 (1:Int) 2 0 1 0 6 2 2 2
          false false).posts).map RecvPost.dir)) :=
  comm_exactly_once_per_pair 8 1 1 1 0 1 2 0 0 0 0 1 0 6 2 2 2 ⟨1,0,0⟩
    (fun _ _ => 0) (fun _ _ => 0) (by decide) (by decide)
    ⟨by decide, by decide, by decide⟩ ⟨by decide, by decide, by decide⟩
    ⟨by decide, by decide, by decide⟩

/-- Accumulating writes: each write adds its value into the current cell
(`(domain.*dest)(idx) += srcAddr[...]` in `CommSBN`). -/
def runAccums {κ : Type} [DecidableEq κ] (ws : List (κ × ℚ)) (f : κ → ℚ) : κ → ℚ :=
  ws.foldl (fun g w => Function.update g w.1 (g w.1 + w.2)) f

theorem runW_cons {κ : Type} [DecidableEq κ] (w : κ × ℚ) (t : List (κ × ℚ))
    (f : κ → ℚ) : runW (w :: t) f = runW t (Function.update f w.1 w.2) := rfl

theorem runAccums_cons {κ : Type} [DecidableEq κ] (w : κ × ℚ) (t : List (κ × ℚ))
    (f : κ → ℚ) :
    runAccums (w :: t) f = runAccums t (Function.update f w.1 (f w.1 + w.2)) := rfl

theorem runW_not_mem {κ : Type} [DecidableEq κ] (ws : List (κ × ℚ)) (f : κ → ℚ)
    (k : κ) (h : k ∉ ws.map Prod.fst) : runW ws f k = f k := by
  induction ws generalizing f with
  | nil => rfl
  | cons w t ih =>
    simp only [List.map_cons, List.mem_cons, not_or] at h
    rw [runW_cons, ih _ h.2, Function.update_noteq h.1]

theorem runW_nodup_mem {κ : Type} [DecidableEq κ] (ws : List (κ × ℚ)) (f : κ → ℚ)
    (k : κ) (v : ℚ) (hnd : (ws.map Prod.fst).Nodup) (hm : (k, v) ∈ ws) :
    runW ws f k = v := by
  induction ws generalizing f with
  | nil => cases hm
  | cons w t ih =>
    simp only [List.map_cons, List.nodup_cons] at hnd
    rw [runW_cons]
    rcases List.mem_cons.mp hm with h | h
    · have hk : w.1 = k := by rw [← h]
      have hnm : k ∉ t.map Prod.fst := by rw [← hk]; exact hnd.1
      rw [runW_not_mem _ _ _ hnm, ← h, Function.update_same]
    · exact ih _ hnd.2 h

theorem runAccums_not_mem {κ : Type} [DecidableEq κ] (ws : List (κ × ℚ))
    (f : κ → ℚ) (k : κ) (h : k ∉ ws.map Prod.fst) : runAccums ws f k = f k := by
  induction ws generalizing f with
  | nil => rfl
  | cons w t ih =>
    simp only [List.map_cons, List.mem_cons, not_or] at h
    rw [runAccums_cons, ih _ h.2, Function.update_noteq h.1]

theorem runAccums_nodup_mem {κ : Type} [DecidableEq κ] (ws : List (κ × ℚ))
    (f : κ → ℚ) (k : κ) (v : ℚ) (hnd : (ws.map Prod.fst).Nodup)
    (hm : (k, v) ∈ ws) : runAccums ws f k = f k + v := by
  induction ws generalizing f with
  | nil => cases hm
  | cons w t ih =>
    simp only [List.map_cons, List.nodup_cons] at hnd
    rw [runAccums_cons]
    rcases List.mem_cons.mp hm with h | h
    · have hk : w.1 = k := by rw [← h]
      have hnm : k ∉ t.map Prod.fst := by rw [← hk]; exact hnd.1
      rw [runAccums_not_mem _ _ _ hnm, ← h, Function.update_same]
    · have hk : w.1 ≠ k := by
        intro hc
        exact hnd.1 (hc ▸ List.mem_map_of_mem Prod.fst h)
      rw [ih _ hnd.2 h, Function.update_noteq (Ne.symm hk)]

theorem range_flatMap_mul (a b : Nat) :
    (List.range a).flatMap (fun i => (List.range b).map (fun j => i * b + j)) =
      List.range (a * b) := by
  induction a with
  | zero => simp
  | succ n ih =>
    rw [List.range_succ, List.flatMap_append, ih, Nat.succ_mul,
      List.range_add]
    simp

theorem range_flatMap_mul_add (c a b : Nat) :
    (List.range a).flatMap (fun i => (List.range b).map (fun j => c + (i * b + j))) =
      (List.range (a * b)).map (fun k => c + k) := by
  rw [← range_flatMap_mul a b]
  simp [List.map_flatMap, List.map_map, Function.comp, Nat.add_assoc]

theorem nodup_flatMap_range {β : Type} (a : Nat) (g : Nat → List β)
    (hg : ∀ i, i < a → (g i).Nodup)
    (hdisj : ∀ i1 i2, i1 < a → i2 < a → i1 ≠ i2 → ∀ x ∈ g i1, x ∉ g i2) :
    ((List.range a).flatMap g).Nodup := by
  induction a with
  | zero => simp
  | succ n ih =>
    rw [List.range_succ, List.flatMap_append]
    simp only [List.flatMap_cons, List.flatMap_nil, List.append_nil]
    refine List.Nodup.append ?_ (hg n (Nat.lt_succ_self n)) ?_
    · exact ih (fun i hi => hg i (Nat.lt_succ_of_lt hi))
        (fun i1 i2 h1 h2 => hdisj i1 i2 (Nat.lt_succ_of_lt h1) (Nat.lt_succ_of_lt h2))
    · intro x hx
      obtain ⟨i, hi, hxi⟩ := List.mem_flatMap.mp hx
      have hilt := List.mem_range.mp hi
      exact hdisj i n (Nat.lt_succ_of_lt hilt) (Nat.lt_succ_self n)
        (Nat.ne_of_lt hilt) x hxi

theorem packWritesC_keys (xf cnt base : Nat) (srcIdx : Nat → Nat)
    (F : Nat → Nat → ℚ) :
    (packWritesC xf cnt base srcIdx F).map Prod.fst =
      (List.range (xf * cnt)).map (fun k => base + k) := by
  rw [← range_flatMap_mul_add base xf cnt]
  simp [packWritesC, List.map_flatMap, List.map_map, Function.comp_def, Nat.add_assoc]

theorem packWritesC_keys_nodup (xf cnt base : Nat) (srcIdx : Nat → Nat)
    (F : Nat → Nat → ℚ) :
    ((packWritesC xf cnt base srcIdx F).map Prod.fst).Nodup := by
  rw [packWritesC_keys]
  exact (List.nodup_range _).map (fun a b h => by omega)

theorem packWritesC_mem (xf cnt base : Nat) (srcIdx : Nat → Nat)
    (F : Nat → Nat → ℚ) (fi i : Nat) (hfi : fi < xf) (hi : i < cnt) :
    (base + fi * cnt + i, F fi (srcIdx i)) ∈ packWritesC xf cnt base srcIdx F := by
  refine List.mem_flatMap.mpr ⟨fi, List.mem_range.mpr hfi, ?_⟩
  exact List.mem_map.mpr ⟨i, List.mem_range.mpr hi, rfl⟩

/-- Reading back a contiguous gather: the packed buffer holds each field
value at its slot. -/
theorem runW_packWritesC (xf cnt base : Nat) (srcIdx : Nat → Nat)
    (F : Nat → Nat → ℚ) (B0 : Nat → ℚ) (fi i : Nat)
    (hfi : fi < xf) (hi : i < cnt) :
    runW (packWritesC xf cnt base srcIdx F) B0 (base + fi * cnt + i) =
      F fi (srcIdx i) :=
  runW_nodup_mem _ _ _ _ (packWritesC_keys_nodup xf cnt base srcIdx F)
    (packWritesC_mem xf cnt base srcIdx F fi i hfi hi)

theorem packWritesN_keys (xf n1 n2 base : Nat) (srcIdx : Nat → Nat → Nat)
    (F : Nat → Nat → ℚ) :
    (packWritesN xf n1 n2 (n1 * n2) base (fun i j => i * n2 + j) srcIdx F).map
        Prod.fst =
      (List.range (xf * (n1 * n2))).map (fun k => base + k) := by
  rw [← range_flatMap_mul_add base xf (n1 * n2)]
  simp only [packWritesN, List.map_flatMap, List.map_map, Function.comp_def]
  simp only [range_flatMap_mul_add]
  simp only [Nat.add_assoc]
  simp only [range_flatMap_mul_add]

theorem packWritesN_keys_nodup (xf n1 n2 base : Nat) (srcIdx : Nat → Nat → Nat)
    (F : Nat → Nat → ℚ) :
    ((packWritesN xf n1 n2 (n1 * n2) base (fun i j => i * n2 + j) srcIdx F).map
      Prod.fst).Nodup := by
  rw [packWritesN_keys]
  exact (List.nodup_range _).map (fun a b h => by omega)

theorem packWritesN_mem (xf n1 n2 cnt base : Nat)
    (bufIdx srcIdx : Nat → Nat → Nat) (F : Nat → Nat → ℚ) (fi i j : Nat)
    (hfi : fi < xf) (hi : i < n1) (hj : j < n2) :
    (base + fi * cnt + bufIdx i j, F fi (srcIdx i j)) ∈
      packWritesN xf n1 n2 cnt base bufIdx srcIdx F := by
  refine List.mem_flatMap.mpr ⟨fi, List.mem_range.mpr hfi, ?_⟩
  refine List.mem_flatMap.mpr ⟨i, List.mem_range.mpr hi, ?_⟩
  exact List.mem_map.mpr ⟨j, List.mem_range.mpr hj, rfl⟩

/-- Reading back a nested gather with the standard row-major buffer index
map `i*n2 + j` and field segment length `cnt = n1 * n2`. -/
theorem runW_packWritesN (xf n1 n2 cnt base : Nat) (srcIdx : Nat → Nat → Nat)
    (F : Nat → Nat → ℚ) (B0 : Nat → ℚ) (fi i j : Nat)
    (hfi : fi < xf) (hi : i < n1) (hj : j < n2) (hcnt : cnt = n1 * n2) :
    runW (packWritesN xf n1 n2 cnt base (fun i j => i * n2 + j) srcIdx F) B0
        (base + fi * cnt + (i * n2 + j)) =
      F fi (srcIdx i j) := by
  subst hcnt
  exact runW_nodup_mem _ _ _ _ (packWritesN_keys_nodup xf n1 n2 base srcIdx F)
    (packWritesN_mem xf n1 n2 (n1 * n2) base (fun i j => i * n2 + j) srcIdx F
      fi i j hfi hi hj)

theorem packCorner_keys_nodup (xf base idx : Nat) (F : Nat → Nat → ℚ) :
    ((packCorner xf base idx F).map Prod.fst).Nodup := by
  unfold packCorner
  rw [List.map_map]
  exact (List.nodup_range _).map (fun a b h => by
    simp [Function.comp] at h; omega)

theorem packCorner_mem (xf base idx : Nat) (F : Nat → Nat → ℚ) (fi : Nat)
    (hfi : fi < xf) :
    (base + fi, F fi idx) ∈ packCorner xf base idx F :=
  List.mem_map.mpr ⟨fi, List.mem_range.mpr hfi, rfl⟩

/-- Reading back a corner gather. -/
theorem runW_packCorner (xf base idx : Nat) (F : Nat → Nat → ℚ) (B0 : Nat → ℚ)
    (fi : Nat) (hfi : fi < xf) :
    runW (packCorner xf base idx F) B0 (base + fi) = F fi idx :=
  runW_nodup_mem _ _ _ _ (packCorner_keys_nodup xf base idx F)
    (packCorner_mem xf base idx F fi hfi)

/-- The field writes of one single-loop unpack block: for each field `fi`
in list order, for each `i < cnt`, the mesh cell `(fi, meshIdx i)` takes
the buffer value at `off + fi*cnt + i` (the running `srcAddr` advances by
`cnt` after each field).  This is the loop shape shared by the overwrite
blocks of `CommSyncPosVel` (e.g. lines 1935-1941) and the accumulate
blocks of `CommSBN` (e.g. lines 1353-1359). -/
def fieldWritesC (xf cnt off : Nat) (meshIdx : Nat → Nat) (B : Nat → ℚ) :
    List ((Nat × Nat) × ℚ) :=
  (List.range xf).flatMap fun fi =>
    (List.range cnt).map fun i => ((fi, meshIdx i), B (off + fi * cnt + i))

/-- The field writes of one doubly nested unpack block (e.g.
`CommSyncPosVel` lines 2000-2008, `CommSBN` lines 1397-1405). -/
def fieldWritesN (xf n1 n2 cnt off : Nat) (meshIdx bufIdx : Nat → Nat → Nat)
    (B : Nat → ℚ) : List ((Nat × Nat) × ℚ) :=
  (List.range xf).flatMap fun fi =>
    (List.range n1).flatMap fun i =>
      (List.range n2).map fun j =>
        ((fi, meshIdx i j), B (off + fi * cnt + bufIdx i j))

/-- The field writes of one corner unpack block (e.g. `CommSyncPosVel`
lines 2314-2316, `CommSBN` lines 1730-1732). -/
def fieldWritesCorner (xf off idx : Nat) (B : Nat → ℚ) :
    List ((Nat × Nat) × ℚ) :=
  (List.range xf).map fun fi => ((fi, idx), B (off + fi))

theorem fieldWritesC_keys_nodup (xf cnt off : Nat) (meshIdx : Nat → Nat)
    (B : Nat → ℚ)
    (hinj : ∀ i1 i2, i1 < cnt → i2 < cnt → meshIdx i1 = meshIdx i2 → i1 = i2) :
    ((fieldWritesC xf cnt off meshIdx B).map Prod.fst).Nodup := by
  unfold fieldWritesC
  rw [List.map_flatMap]
  refine nodup_flatMap_range xf _ ?_ ?_
  · intro fi hfi
    rw [List.map_map]
    refine (List.nodup_range cnt).map_on ?_
    intro x hx y hy hxy
    simp only [Function.comp, Prod.mk.injEq] at hxy
    exact hinj x y (List.mem_range.mp hx) (List.mem_range.mp hy) hxy.2
  · intro i1 i2 h1 h2 hne x hx1 hx2
    rw [List.map_map] at hx1 hx2
    obtain ⟨a, ha, rfl⟩ := List.mem_map.mp hx1
    obtain ⟨b, hb, hfst⟩ := List.mem_map.mp hx2
    simp only [Function.comp, Prod.mk.injEq] at hfst
    exact hne hfst.1.symm

theorem fieldWritesC_mem (xf cnt off : Nat) (meshIdx : Nat → Nat) (B : Nat → ℚ)
    (fi i : Nat) (hfi : fi < xf) (hi : i < cnt) :
    ((fi, meshIdx i), B (off + fi * cnt + i)) ∈ fieldWritesC xf cnt off meshIdx B := by
  refine List.mem_flatMap.mpr ⟨fi, List.mem_range.mpr hfi, ?_⟩
  exact List.mem_map.mpr ⟨i, List.mem_range.mpr hi, rfl⟩

/-- Overwrite-unpacking a single-loop block reads back the buffer slot. -/
theorem runW_fieldWritesC (xf cnt off : Nat) (meshIdx : Nat → Nat) (B : Nat → ℚ)
    (G : Nat × Nat → ℚ) (fi i : Nat) (hfi : fi < xf) (hi : i < cnt)
    (hinj : ∀ i1 i2, i1 < cnt → i2 < cnt → meshIdx i1 = meshIdx i2 → i1 = i2) :
    runW (fieldWritesC xf cnt off meshIdx B) G (fi, meshIdx i) =
      B (off + fi * cnt + i) :=
  runW_nodup_mem _ _ _ _ (fieldWritesC_keys_nodup xf cnt off meshIdx B hinj)
    (fieldWritesC_mem xf cnt off meshIdx B fi i hfi hi)

/-- Accumulate-unpacking a single-loop block adds the buffer slot once. -/
theorem runAccums_fieldWritesC (xf cnt off : Nat) (meshIdx : Nat → Nat)
    (B : Nat → ℚ) (G : Nat × Nat → ℚ) (fi i : Nat) (hfi : fi < xf) (hi : i < cnt)
    (hinj : ∀ i1 i2, i1 < cnt → i2 < cnt → meshIdx i1 = meshIdx i2 → i1 = i2) :
    runAccums (fieldWritesC xf cnt off meshIdx B) G (fi, meshIdx i) =
      G (fi, meshIdx i) + B (off + fi * cnt + i) :=
  runAccums_nodup_mem _ _ _ _ (fieldWritesC_keys_nodup xf cnt off meshIdx B hinj)
    (fieldWritesC_mem xf cnt off meshIdx B fi i hfi hi)

theorem fieldWritesN_keys_nodup (xf n1 n2 cnt off : Nat)
    (meshIdx bufIdx : Nat → Nat → Nat) (B : Nat → ℚ)
    (hinj : ∀ i1 j1 i2 j2, i1 < n1 → j1 < n2 → i2 < n1 → j2 < n2 →
      meshIdx i1 j1 = meshIdx i2 j2 → i1 = i2 ∧ j1 = j2) :
    ((fieldWritesN xf n1 n2 cnt off meshIdx bufIdx B).map Prod.fst).Nodup := by
  unfold fieldWritesN
  rw [List.map_flatMap]
  refine nodup_flatMap_range xf _ ?_ ?_
  · intro fi hfi
    rw [List.map_flatMap]
    refine nodup_flatMap_range n1 _ ?_ ?_
    · intro i hi
      rw [List.map_map]
      refine (List.nodup_range n2).map_on ?_
      intro x hx y hy hxy
      simp only [Function.comp, Prod.mk.injEq] at hxy
      exact (hinj i x i y hi (List.mem_range.mp hx) hi (List.mem_range.mp hy)
        hxy.2).2
    · intro i1 i2 h1 h2 hne x hx1 hx2
      rw [List.map_map] at hx1 hx2
      obtain ⟨a, ha, rfl⟩ := List.mem_map.mp hx1
      obtain ⟨b, hb, hfst⟩ := List.mem_map.mp hx2
      simp only [Function.comp, Prod.mk.injEq] at hfst
      exact hne (hinj i2 b i1 a h2 (List.mem_range.mp hb) h1
        (List.mem_range.mp ha) hfst.2).1.symm
  · intro i1 i2 h1 h2 hne x hx1 hx2
    rw [List.map_flatMap] at hx1 hx2
    obtain ⟨a, ha, hxa⟩ := List.mem_flatMap.mp hx1
    obtain ⟨b, hb, hxb⟩ := List.mem_flatMap.mp hx2
    rw [List.map_map] at hxa hxb
    obtain ⟨c, hc, rfl⟩ := List.mem_map.mp hxa
    obtain ⟨e, he, hfst⟩ := List.mem_map.mp hxb
    simp only [Function.comp, Prod.mk.injEq] at hfst
    exact hne hfst.1.symm

theorem fieldWritesN_mem (xf n1 n2 cnt off : Nat)
    (meshIdx bufIdx : Nat → Nat → Nat) (B : Nat → ℚ) (fi i j : Nat)
    (hfi : fi < xf) (hi : i < n1) (hj : j < n2) :
    ((fi, meshIdx i j), B (off + fi * cnt + bufIdx i j)) ∈
      fieldWritesN xf n1 n2 cnt off meshIdx bufIdx B := by
  refine List.mem_flatMap.mpr ⟨fi, List.mem_range.mpr hfi, ?_⟩
  refine List.mem_flatMap.mpr ⟨i, List.mem_range.mpr hi, ?_⟩
  exact List.mem_map.mpr ⟨j, List.mem_range.mpr hj, rfl⟩

/-- Overwrite-unpacking a nested block reads back the buffer slot. -/
theorem runW_fieldWritesN (xf n1 n2 cnt off : Nat)
    (meshIdx bufIdx : Nat → Nat → Nat) (B : Nat → ℚ) (G : Nat × Nat → ℚ)
    (fi i j : Nat) (hfi : fi < xf) (hi : i < n1) (hj : j < n2)
    (hinj : ∀ i1 j1 i2 j2, i1 < n1 → j1 < n2 → i2 < n1 → j2 < n2 →
      meshIdx i1 j1 = meshIdx i2 j2 → i1 = i2 ∧ j1 = j2) :
    runW (fieldWritesN xf n1 n2 cnt off meshIdx bufIdx B) G (fi, meshIdx i j) =
      B (off + fi * cnt + bufIdx i j) :=
  runW_nodup_mem _ _ _ _
    (fieldWritesN_keys_nodup xf n1 n2 cnt off meshIdx bufIdx B hinj)
    (fieldWritesN_mem xf n1 n2 cnt off meshIdx bufIdx B fi i j hfi hi hj)

theorem fieldWritesCorner_keys_nodup (xf off idx : Nat) (B : Nat → ℚ) :
    ((fieldWritesCorner xf off idx B).map Prod.fst).Nodup := by
  unfold fieldWritesCorner
  rw [List.map_map]
  refine (List.nodup_range _).map_on ?_
  intro x hx y hy hxy
  simp only [Function.comp, Prod.mk.injEq] at hxy
  exact hxy.1

theorem fieldWritesCorner_mem (xf off idx : Nat) (B : Nat → ℚ) (fi : Nat)
    (hfi : fi < xf) :
    ((fi, idx), B (off + fi)) ∈ fieldWritesCorner xf off idx B :=
  List.mem_map.mpr ⟨fi, List.mem_range.mpr hfi, rfl⟩

/-- Overwrite-unpacking a corner block reads back the buffer slot. -/
theorem runW_fieldWritesCorner (xf off idx : Nat) (B : Nat → ℚ)
    (G : Nat × Nat → ℚ) (fi : Nat) (hfi : fi < xf) :
    runW (fieldWritesCorner xf off idx B) G (fi, idx) = B (off + fi) :=
  runW_nodup_mem _ _ _ _ (fieldWritesCorner_keys_nodup xf off idx B)
    (fieldWritesCorner_mem xf off idx B fi hfi)

theorem mul_add_inj (K i1 j1 i2 j2 : Nat) (hj1 : j1 < K) (hj2 : j2 < K)
    (h : i1 * K + j1 = i2 * K + j2) : i1 = i2 ∧ j1 = j2 := by
  have hmod : j1 = j2 := by
    have h2 := congrArg (fun t => t % K) h
    simp only at h2
    rw [Nat.add_comm (i1*K) j1, Nat.add_comm (i2*K) j2,
      Nat.mul_comm i1 K, Nat.mul_comm i2 K] at h2
    rw [Nat.add_mul_mod_self_left, Nat.add_mul_mod_self_left] at h2
    rwa [Nat.mod_eq_of_lt hj1, Nat.mod_eq_of_lt hj2] at h2
  subst hmod
  have hK : 0 < K := Nat.lt_of_le_of_lt (Nat.zero_le j1) hj1
  refine ⟨Nat.eq_of_mul_eq_mul_right hK (Nat.add_right_cancel h), rfl⟩

/-- C3: pack-then-unpack-overwrite round trip, for the three geometric
shape classes (with all three Face enumeration shapes): packing a boundary
region with `CommSend`'s gather loops into a buffer at base `b` and then
unpacking that buffer with the overwrite loops of `CommSyncPosVel` over
the identically shaped region reproduces the packed field values exactly
at every index of the region, for every field list, field state and
initial buffer/destination contents. -/
theorem commSend_pack_commSyncPosVel_unpack_roundtrip
    (xf dx dy dz b : Nat) (F : Nat → Nat → ℚ) (B0 : Nat → ℚ) (G : Nat × Nat → ℚ)
    (hdx : 1 ≤ dx) (hdy : 1 ≤ dy) :
    (∀ fi i, fi < xf → i < dx*dy →
      runW (fieldWritesC xf (dx*dy) b (fun i => i)
          (runW (packWritesC xf (dx*dy) b (fun i => i) F) B0)) G (fi, i) =
        F fi i) ∧
    (∀ fi i j, fi < xf → i < dz → j < dx →
      runW (fieldWritesN xf dz dx (dx*dz) b (fun i j => i*dx*dy + j)
          (fun i j => i*dx + j)
          (runW (packWritesN xf dz dx (dx*dz) b (fun i j => i*dx + j)
            (fun i j => i*dx*dy + j) F) B0)) G (fi, i*dx*dy + j) =
        F fi (i*dx*dy + j)) ∧
    (∀ fi i j, fi < xf → i < dz → j < dy →
      runW (fieldWritesN xf dz dy (dy*dz) b (fun i j => i*dx*dy + j*dx)
          (fun i j => i*dy + j)
          (runW (packWritesN xf dz dy (dy*dz) b (fun i j => i*dy + j)
            (fun i j => i*dx*dy + j*dx) F) B0)) G (fi, i*dx*dy + j*dx) =
        F fi (i*dx*dy + j*dx)) ∧
    (∀ fi i, fi < xf → i < dz →
      runW (fieldWritesC xf dz b (fun i => i*dx*dy)
          (runW (packWritesC xf dz b (fun i => i*dx*dy) F) B0)) G (fi, i*dx*dy) =
        F fi (i*dx*dy)) ∧
    (∀ fi, fi < xf →
      runW (fieldWritesCorner xf b 0 (runW (packCorner xf b 0 F) B0)) G (fi, 0) =
        F fi 0) := by
  have hK : 0 < dx * dy := Nat.mul_pos hdx hdy
  refine ⟨?_, ?_, ?_, ?_, ?_⟩
  · intro fi i hfi hi
    rw [runW_fieldWritesC xf (dx*dy) b (fun i => i) _ G fi i hfi hi
      (fun i1 i2 _ _ h => h)]
    exact runW_packWritesC xf (dx*dy) b (fun i => i) F B0 fi i hfi hi
  · intro fi i j hfi hi hj
    have hinj : ∀ i1 j1 i2 j2, i1 < dz → j1 < dx → i2 < dz → j2 < dx →
        i1*dx*dy + j1 = i2*dx*dy + j2 → i1 = i2 ∧ j1 = j2 := by
      intro i1 j1 i2 j2 h1 h2 h3 h4 heq
      rw [Nat.mul_assoc, Nat.mul_assoc] at heq
      exact mul_add_inj (dx*dy) i1 j1 i2 j2
        (Nat.lt_of_lt_of_le h2 (Nat.le_mul_of_pos_right dx hdy))
        (Nat.lt_of_lt_of_le h4 (Nat.le_mul_of_pos_right dx hdy)) heq
    rw [runW_fieldWritesN xf dz dx (dx*dz) b (fun i j => i*dx*dy + j)
      (fun i j => i*dx + j) _ G fi i j hfi hi hj hinj]
    exact runW_packWritesN xf dz dx (dx*dz) b (fun i j => i*dx*dy + j) F B0
      fi i j hfi hi hj (Nat.mul_comm dx dz)
  · intro fi i j hfi hi hj
    have hinj : ∀ i1 j1 i2 j2, i1 < dz → j1 < dy → i2 < dz → j2 < dy →
        i1*dx*dy + j1*dx = i2*dx*dy + j2*dx → i1 = i2 ∧ j1 = j2 := by
      intro i1 j1 i2 j2 h1 h2 h3 h4 heq
      have heq2 : (i1*dy + j1) * dx = (i2*dy + j2) * dx := by
        calc (i1*dy + j1) * dx = i1*dx*dy + j1*dx := by ring
          _ = i2*dx*dy + j2*dx := heq
          _ = (i2*dy + j2) * dx := by ring
      have heq3 := Nat.eq_of_mul_eq_mul_right hdx heq2
      exact mul_add_inj dy i1 j1 i2 j2 h2 h4 heq3
    rw [runW_fieldWritesN xf dz dy (dy*dz) b (fun i j => i*dx*dy + j*dx)
      (fun i j => i*dy + j) _ G fi i j hfi hi hj hinj]
    exact runW_packWritesN xf dz dy (dy*dz) b (fun i j => i*dx*dy + j*dx) F B0
      fi i j hfi hi hj (Nat.mul_comm dy dz)
  · intro fi i hfi hi
    have hinj : ∀ i1 i2, i1 < dz → i2 < dz → i1*dx*dy = i2*dx*dy → i1 = i2 := by
      intro i1 i2 _ _ heq
      rw [Nat.mul_assoc, Nat.mul_assoc] at heq
      exact Nat.eq_of_mul_eq_mul_right hK heq
    rw [runW_fieldWritesC xf dz b (fun i => i*dx*dy) _ G fi i hfi hi hinj]
    exact runW_packWritesC xf dz b (fun i => i*dx*dy) F B0 fi i hfi hi
  · intro fi hfi
    rw [runW_fieldWritesCorner xf b 0 _ G fi hfi]
    exact runW_packCorner xf b 0 F B0 fi hfi

/-- Concrete witness for `commSend_pack_commSyncPosVel_unpack_roundtrip`. -/
theorem commSend_pack_commSyncPosVel_unpack_roundtrip_witness :
    (∀ fi i, fi < 2 → i < 2*3 →
      runW (fieldWritesC 2 (2*3) 5 (fun i => i)
          (runW (packWritesC 2 (2*3) 5 (fun i => i) (fun _ _ => (3:ℚ)))
            (fun _ => 0))) (fun _ => 0) (fi, i) = 3) ∧
    (∀ fi i j, fi < 2 → i < 4 → j < 2 →
      runW (fieldWritesN 2 4 2 (2*4) 5 (fun i j => i*2*3 + j) (fun i j => i*2 + j)
          (runW (packWritesN 2 4 2 (2*4) 5 (fun i j => i*2 + j)
            (fun i j => i*2*3 + j) (fun _ _ => (3:ℚ))) (fun _ => 0)))
        (fun _ => 0) (fi, i*2*3 + j) = 3) ∧
    (∀ fi i j, fi < 2 → i < 4 → j < 3 →
      runW (fieldWritesN 2 4 3 (3*4) 5 (fun i j => i*2*3 + j*2) (fun i j => i*3 + j)
          (runW (packWritesN 2 4 3 (3*4) 5 (fun i j => i*3 + j)
            (fun i j => i*2*3 + j*2) (fun _ _ => (3:ℚ))) (fun _ => 0)))
        (fun _ => 0) (fi, i*2*3 + j*2) = 3) ∧
    (∀ fi i, fi < 2 → i < 4 →
      runW (fieldWritesC 2 4 5 (fun i => i*2*3)
          (runW (packWritesC 2 4 5 (fun i => i*2*3) (fun _ _ => (3:ℚ)))
            (fun _ => 0))) (fun _ => 0) (fi, i*2*3) = 3) ∧
    (∀ fi, fi < 2 →
      runW (fieldWritesCorner 2 5 0 (runW (packCorner 2 5 0 (fun _ _ => (3:ℚ)))
        (fun _ => 0))) (fun _ => 0) (fi, 0) = 3) :=
  commSend_pack_commSyncPosVel_unpack_roundtrip 2 2 3 4 5
    (fun _ _ => 3) (fun _ => 0) (fun _ => 0) (by decide) (by decide)

/-- C4: `CommSBN` consumption is additive, not overwrite: unpacking one
message block in accumulate mode adds each buffer value into the current
cell value, so unpacking the same message twice over a field holding `v0`
leaves `v0 + 2·v` at each covered index, not `v0 + v`. -/
theorem commSBN_accumulate_additive
    (xf cnt off : Nat) (meshIdx : Nat → Nat) (B : Nat → ℚ) (F : Nat × Nat → ℚ)
    (fi i : Nat) (hfi : fi < xf) (hi : i < cnt)
    (hinj : ∀ i1 i2, i1 < cnt → i2 < cnt → meshIdx i1 = meshIdx i2 → i1 = i2) :
    runAccums (fieldWritesC xf cnt off meshIdx B) F (fi, meshIdx i) =
      F (fi, meshIdx i) + B (off + fi * cnt + i) ∧
    runAccums (fieldWritesC xf cnt off meshIdx B)
        (runAccums (fieldWritesC xf cnt off meshIdx B) F) (fi, meshIdx i) =
      F (fi, meshIdx i) + 2 * B (off + fi * cnt + i) := by
  refine ⟨runAccums_fieldWritesC xf cnt off meshIdx B F fi i hfi hi hinj, ?_⟩
  rw [runAccums_fieldWritesC xf cnt off meshIdx B _ fi i hfi hi hinj,
    runAccums_fieldWritesC xf cnt off meshIdx B F fi i hfi hi hinj]
  ring

/-- Concrete witness for `commSBN_accumulate_additive`. -/
theorem commSBN_accumulate_additive_witness :
    runAccums (fieldWritesC 3 4 2 (fun i => i) (fun _ => (5:ℚ)))
        (fun _ => (7:ℚ)) (1, 2) = 7 + 5 ∧
    runAccums (fieldWritesC 3 4 2 (fun i => i) (fun _ => (5:ℚ)))
        (runAccums (fieldWritesC 3 4 2 (fun i => i) (fun _ => (5:ℚ)))
          (fun _ => (7:ℚ))) (1, 2) = 7 + 2 * 5 :=
  commSBN_accumulate_additive 3 4 2 (fun i => i) (fun _ => 5) (fun _ => 7)
    1 2 (by decide) (by decide) (fun i1 i2 _ _ h => h)

/-- One consumed message of a consume-phase traversal: the direction, the
`commDataRecv` offset read from, and the `recvRequest` slot waited on. -/
structure Slot where
  dir : Dir
  offset : Nat
  reqIdx : Nat
deriving DecidableEq, Repr

/-- Traversal state of a consume phase: the current field contents (keyed
by field index and mesh index), the slots consumed so far in order, and
the three message counters. -/
structure ConsumeSt where
  F : Nat × Nat → ℚ
  slots : List Slot
  pmsg : Nat
  emsg : Nat
  cmsg : Nat

/-- A single-loop face accumulate branch of `CommSBN` (e.g. planeMin,
lines 1343-1361): wait on request `pmsg`, add the buffer block at offset
`pmsg * maxPlaneComm` into the mesh, increment `pmsg`. -/
def sbnFaceC (cond : Bool) (dir : Dir) (xf cnt : Nat) (meshIdx : Nat → Nat)
    (mpc : Nat) (B : Nat → ℚ) (s : ConsumeSt) : ConsumeSt :=
  if cond then
    { F := runAccums (fieldWritesC xf cnt (s.pmsg * mpc) meshIdx B) s.F,
      slots := s.slots ++ [⟨dir, s.pmsg * mpc, s.pmsg⟩],
      pmsg := s.pmsg + 1, emsg := s.emsg, cmsg := s.cmsg }
  else s

/-- A nested face accumulate branch of `CommSBN` (e.g. rowMin, lines
1387-1407). -/
def sbnFaceN (cond : Bool) (dir : Dir) (xf n1 n2 cnt : Nat)
    (meshIdx bufIdx : Nat → Nat → Nat) (mpc : Nat) (B : Nat → ℚ)
    (s : ConsumeSt) : ConsumeSt :=
  if cond then
    { F := runAccums (fieldWritesN xf n1 n2 cnt (s.pmsg * mpc) meshIdx bufIdx B) s.F,
      slots := s.slots ++ [⟨dir, s.pmsg * mpc, s.pmsg⟩],
      pmsg := s.pmsg + 1, emsg := s.emsg, cmsg := s.cmsg }
  else s

/-- An edge accumulate branch of `CommSBN` (e.g. lines 1478-1496). -/
def sbnEdge (cond : Bool) (dir : Dir) (xf len : Nat) (meshIdx : Nat → Nat)
    (mpc mec : Nat) (B : Nat → ℚ) (s : ConsumeSt) : ConsumeSt :=
  if cond then
    { F := runAccums (fieldWritesC xf len (s.pmsg * mpc + s.emsg * mec) meshIdx B) s.F,
      slots := s.slots ++ [⟨dir, s.pmsg * mpc + s.emsg * mec, s.pmsg + s.emsg⟩],
      pmsg := s.pmsg, emsg := s.emsg + 1, cmsg := s.cmsg }
  else s

/-- A corner accumulate branch of `CommSBN` (e.g. lines 1718-1734). -/
def sbnCorner (cond : Bool) (dir : Dir) (xf idx : Nat) (mpc mec pad : Nat)
    (B : Nat → ℚ) (s : ConsumeSt) : ConsumeSt :=
  if cond then
    { F := runAccums
        (fieldWritesCorner xf (s.pmsg * mpc + s.emsg * mec + s.cmsg * pad) idx B) s.F,
      slots := s.slots ++ [⟨dir, s.pmsg * mpc + s.emsg * mec + s.cmsg * pad,
        s.pmsg + s.emsg + s.cmsg⟩],
      pmsg := s.pmsg, emsg := s.emsg, cmsg := s.cmsg + 1 }
  else s

/-- The consume traversal of `CommSBN` (lulesh-comm.cc lines 1339-1861),
with the six boundary flags hoisted as parameters; `dx`, `dy`, `dz` are
the nodal dimensions `size + 1` computed at lines 1309-1311.  All 26
branches are unguarded; order, wait indices, buffer offsets and mesh
index maps follow the source. -/
def commSBNOps (mpc mec pad xf dx dy dz : Nat) (rm rM cm cM pm pM : Bool)
    (F : Nat × Nat → ℚ) (B : Nat → ℚ) : ConsumeSt :=
  let s := ConsumeSt.mk F [] 0 0 0
  let s := sbnFaceC pm ⟨0,0,-1⟩ xf (dx*dy) (fun i => i) mpc B s
  let s := sbnFaceC pM ⟨0,0,1⟩ xf (dx*dy) (fun i => dx*dy*(dz - 1) + i) mpc B s
  let s := sbnFaceN rm ⟨0,-1,0⟩ xf dz dx (dx*dz) (fun i j => i*dx*dy + j)
    (fun i j => i*dx + j) mpc B s
  let s := sbnFaceN rM ⟨0,1,0⟩ xf dz dx (dx*dz) (fun i j => dx*(dy - 1) + i*dx*dy + j)
    (fun i j => i*dx + j) mpc B s
  let s := sbnFaceN cm ⟨-1,0,0⟩ xf dz dy (dy*dz) (fun i j => i*dx*dy + j*dx)
    (fun i j => i*dy + j) mpc B s
  let s := sbnFaceN cM ⟨1,0,0⟩ xf dz dy (dy*dz) (fun i j => dx - 1 + i*dx*dy + j*dx)
    (fun i j => i*dy + j) mpc B s
  let s := sbnEdge (rm && cm) ⟨-1,-1,0⟩ xf dz (fun i => i*dx*dy) mpc mec B s
  let s := sbnEdge (rm && pm) ⟨0,-1,-1⟩ xf dx (fun i => i) mpc mec B s
  let s := sbnEdge (cm && pm) ⟨-1,0,-1⟩ xf dy (fun i => i*dx) mpc mec B s
  let s := sbnEdge (rM && cM) ⟨1,1,0⟩ xf dz (fun i => dx*dy - 1 + i*dx*dy) mpc mec B s
  let s := sbnEdge (rM && pM) ⟨0,1,1⟩ xf dx (fun i => dx*(dy-1) + dx*dy*(dz-1) + i) mpc mec B s
  let s := sbnEdge (cM && pM) ⟨1,0,1⟩ xf dy (fun i => dx*dy*(dz-1) + dx - 1 + i*dx) mpc mec B s
  let s := sbnEdge (rM && cm) ⟨-1,1,0⟩ xf dz (fun i => dx*(dy-1) + i*dx*dy) mpc mec B s
  let s := sbnEdge (rm && pM) ⟨0,-1,1⟩ xf dx (fun i => dx*dy*(dz-1) + i) mpc mec B s
  let s := sbnEdge (cm && pM) ⟨-1,0,1⟩ xf dy (fun i => dx*dy*(dz-1) + i*dx) mpc mec B s
  let s := sbnEdge (rm && cM) ⟨1,-1,0⟩ xf dz (fun i => dx - 1 + i*dx*dy) mpc mec B s
  let s := sbnEdge (rM && pm) ⟨0,1,-1⟩ xf dx (fun i => dx*(dy - 1) + i) mpc mec B s
  let s := sbnEdge (cM && pm) ⟨1,0,-1⟩ xf dy (fun i => dx - 1 + i*dx) mpc mec B s
  let s := sbnCorner (rm && cm && pm) ⟨-1,-1,-1⟩ xf 0 mpc mec pad B s
  let s := sbnCorner (rm && cm && pM) ⟨-1,-1,1⟩ xf (dx*dy*(dz - 1)) mpc mec pad B s
  let s := sbnCorner (rm && cM && pm) ⟨1,-1,-1⟩ xf (dx - 1) mpc mec pad B s
  let s := sbnCorner (rm && cM && pM) ⟨1,-1,1⟩ xf (dx*dy*(dz - 1) + (dx - 1)) mpc mec pad B s
  let s := sbnCorner (rM && cm && pm) ⟨-1,1,-1⟩ xf (dx*(dy - 1)) mpc mec pad B s
  let s := sbnCorner (rM && cm && pM) ⟨-1,1,1⟩ xf (dx*dy*(dz - 1) + dx*(dy - 1)) mpc mec pad B s
  let s := sbnCorner (rM && cM && pm) ⟨1,1,-1⟩ xf (dx*dy - 1) mpc mec pad B s
  let s := sbnCorner (rM && cM && pM) ⟨1,1,1⟩ xf (dx*dy*dz - 1) mpc mec pad B s
  s

/-- `CommSBN` (lulesh-comm.cc lines 1290-1861): early return when
`numRanks = 1`, otherwise consume all active messages in accumulate mode.
`F` is the caller's field list keyed by (field index, mesh index); `B` is
`commDataRecv`. -/
def commSBN (numRanks mps mes pad : Nat) (tp rowLoc colLoc planeLoc : Nat)
    (sizeX sizeY sizeZ xf : Nat) (F : Nat × Nat → ℚ) (B : Nat → ℚ) : ConsumeSt :=
  if numRanks = 1 then ConsumeSt.mk F [] 0 0 0
  else
    commSBNOps (xf * mps) (xf * mes) pad xf (sizeX + 1) (sizeY + 1) (sizeZ + 1)
      (rowMinF rowLoc) (rowMaxF rowLoc tp) (colMinF colLoc) (colMaxF colLoc tp)
      (planeMinF planeLoc) (planeMaxF planeLoc tp) F B

/-- A single-loop face overwrite branch of `CommSyncPosVel` (e.g.
planeMin, lines 1925-1943). -/
def syncFaceC (cond : Bool) (dir : Dir) (xf cnt : Nat) (meshIdx : Nat → Nat)
    (mpc : Nat) (B : Nat → ℚ) (s : ConsumeSt) : ConsumeSt :=
  if cond then
    { F := runW (fieldWritesC xf cnt (s.pmsg * mpc) meshIdx B) s.F,
      slots := s.slots ++ [⟨dir, s.pmsg * mpc, s.pmsg⟩],
      pmsg := s.pmsg + 1, emsg := s.emsg, cmsg := s.cmsg }
  else s

/-- A nested face overwrite branch of `CommSyncPosVel` (e.g. rowMax,
lines 1990-2010). -/
def syncFaceN (cond : Bool) (dir : Dir) (xf n1 n2 cnt : Nat)
    (meshIdx bufIdx : Nat → Nat → Nat) (mpc : Nat) (B : Nat → ℚ)
    (s : ConsumeSt) : ConsumeSt :=
  if cond then
    { F := runW (fieldWritesN xf n1 n2 cnt (s.pmsg * mpc) meshIdx bufIdx B) s.F,
      slots := s.slots ++ [⟨dir, s.pmsg * mpc, s.pmsg⟩],
      pmsg := s.pmsg + 1, emsg := s.emsg, cmsg := s.cmsg }
  else s

/-- An edge overwrite branch of `CommSyncPosVel` (e.g. lines 2121-2139). -/
def syncEdge (cond : Bool) (dir : Dir) (xf len : Nat) (meshIdx : Nat → Nat)
    (mpc mec : Nat) (B : Nat → ℚ) (s : ConsumeSt) : ConsumeSt :=
  if cond then
    { F := runW (fieldWritesC xf len (s.pmsg * mpc + s.emsg * mec) meshIdx B) s.F,
      slots := s.slots ++ [⟨dir, s.pmsg * mpc + s.emsg * mec, s.pmsg + s.emsg⟩],
      pmsg := s.pmsg, emsg := s.emsg + 1, cmsg := s.cmsg }
  else s

/-- A corner overwrite branch of `CommSyncPosVel` (e.g. lines 2319-2336). -/
def syncCorner (cond : Bool) (dir : Dir) (xf idx : Nat) (mpc mec pad : Nat)
    (B : Nat → ℚ) (s : ConsumeSt) : ConsumeSt :=
  if cond then
    { F := runW
        (fieldWritesCorner xf (s.pmsg * mpc + s.emsg * mec + s.cmsg * pad) idx B) s.F,
      slots := s.slots ++ [⟨dir, s.pmsg * mpc + s.emsg * mec + s.cmsg * pad,
        s.pmsg + s.emsg + s.cmsg⟩],
      pmsg := s.pmsg, emsg := s.emsg, cmsg := s.cmsg + 1 }
  else s

/-- The consume traversal of `CommSyncPosVel` (lulesh-comm.cc lines
1921-2445), with the six boundary flags hoisted and the local
`doRecv = false` of line 1876 kept as a `let`; consumption is overwrite
and the `doRecv`-guarded branches follow the source exactly. -/
def commSyncPosVelOps (mpc mec pad xf dx dy dz : Nat) (rm rM cm cM pm pM : Bool)
    (F : Nat × Nat → ℚ) (B : Nat → ℚ) : ConsumeSt :=
  let doRecv := false
  let s := ConsumeSt.mk F [] 0 0 0
  let s := syncFaceC (pm && doRecv) ⟨0,0,-1⟩ xf (dx*dy) (fun i => i) mpc B s
  let s := syncFaceC pM ⟨0,0,1⟩ xf (dx*dy) (fun i => dx*dy*(dz - 1) + i) mpc B s
  let s := syncFaceN (rm && doRecv) ⟨0,-1,0⟩ xf dz dx (dx*dz)
    (fun i j => i*dx*dy + j) (fun i j => i*dx + j) mpc B s
  let s := syncFaceN rM ⟨0,1,0⟩ xf dz dx (dx*dz)
    (fun i j => dx*(dy - 1) + i*dx*dy + j) (fun i j => i*dx + j) mpc B s
  let s := syncFaceN (cm && doRecv) ⟨-1,0,0⟩ xf dz dy (dy*dz)
    (fun i j => i*dx*dy + j*dx) (fun i j => i*dy + j) mpc B s
  let s := syncFaceN cM ⟨1,0,0⟩ xf dz dy (dy*dz)
    (fun i j => dx - 1 + i*dx*dy + j*dx) (fun i j => i*dy + j) mpc B s
  let s := syncEdge (rm && cm && doRecv) ⟨-1,-1,0⟩ xf dz (fun i => i*dx*dy) mpc mec B s
  let s := syncEdge (rm && pm && doRecv) ⟨0,-1,-1⟩ xf dx (fun i => i) mpc mec B s
  let s := syncEdge (cm && pm && doRecv) ⟨-1,0,-1⟩ xf dy (fun i => i*dx) mpc mec B s
  let s := syncEdge (rM && cM) ⟨1,1,0⟩ xf dz (fun i => dx*dy - 1 + i*dx*dy) mpc mec B s
  let s := syncEdge (rM && pM) ⟨0,1,1⟩ xf dx (fun i => dx*(dy-1) + dx*dy*(dz-1) + i) mpc mec B s
  let s := syncEdge (cM && pM) ⟨1,0,1⟩ xf dy (fun i => dx*dy*(dz-1) + dx - 1 + i*dx) mpc mec B s
  let s := syncEdge (rM && cm) ⟨-1,1,0⟩ xf dz (fun i => dx*(dy-1) + i*dx*dy) mpc mec B s
  let s := syncEdge (rm && pM) ⟨0,-1,1⟩ xf dx (fun i => dx*dy*(dz-1) + i) mpc mec B s
  let s := syncEdge (cm && pM) ⟨-1,0,1⟩ xf dy (fun i => dx*dy*(dz-1) + i*dx) mpc mec B s
  let s := syncEdge (rm && cM && doRecv) ⟨1,-1,0⟩ xf dz (fun i => dx - 1 + i*dx*dy) mpc mec B s
  let s := syncEdge (rM && pm && doRecv) ⟨0,1,-1⟩ xf dx (fun i => dx*(dy - 1) + i) mpc mec B s
  let s := syncEdge (cM && pm && doRecv) ⟨1,0,-1⟩ xf dy (fun i => dx - 1 + i*dx) mpc mec B s
  let s := syncCorner (rm && cm && pm && doRecv) ⟨-1,-1,-1⟩ xf 0 mpc mec pad B s
  let s := syncCorner (rm && cm && pM) ⟨-1,-1,1⟩ xf (dx*dy*(dz - 1)) mpc mec pad B s
  let s := syncCorner (rm && cM && pm && doRecv) ⟨1,-1,-1⟩ xf (dx - 1) mpc mec pad B s
  let s := syncCorner (rm && cM && pM) ⟨1,-1,1⟩ xf (dx*dy*(dz - 1) + (dx - 1)) mpc mec pad B s
  let s := syncCorner (rM && cm && pm && doRecv) ⟨-1,1,-1⟩ xf (dx*(dy - 1)) mpc mec pad B s
  let s := syncCorner (rM && cm && pM) ⟨-1,1,1⟩ xf (dx*dy*(dz - 1) + dx*(dy - 1)) mpc mec pad B s
  let s := syncCorner (rM && cM && pm && doRecv) ⟨1,1,-1⟩ xf (dx*dy - 1) mpc mec pad B s
  let s := syncCorner (rM && cM && pM) ⟨1,1,1⟩ xf (dx*dy*dz - 1) mpc mec pad B s
  s

/-- The mesh-side state of a domain, as touched by `CommSyncPosVel` and
`CommMonoQ`: the position/velocity fields `x..zd`, the advection-limiter
fields `delv_*`, plus the geometry and communication parameters. -/
structure Domain where
  numRanks : Nat
  tp : Nat
  rowLoc : Nat
  colLoc : Nat
  planeLoc : Nat
  sizeX : Nat
  sizeY : Nat
  sizeZ : Nat
  numElem : Nat
  maxPlaneSize : Nat
  maxEdgeSize : Nat
  x : Nat → ℚ
  y : Nat → ℚ
  z : Nat → ℚ
  xd : Nat → ℚ
  yd : Nat → ℚ
  zd : Nat → ℚ
  delv_xi : Nat → ℚ
  delv_eta : Nat → ℚ
  delv_zeta : Nat → ℚ
  commDataRecv : Nat → ℚ

/-- The six-entry field list of `CommSyncPosVel` (lines 1912-1917), keyed
by field index. -/
def syncFields (d : Domain) : Nat × Nat → ℚ := fun p =>
  match p.1 with
  | 0 => d.x p.2
  | 1 => d.y p.2
  | 2 => d.z p.2
  | 3 => d.xd p.2
  | 4 => d.yd p.2
  | 5 => d.zd p.2
  | _ => 0

/-- `CommSyncPosVel` (lulesh-comm.cc lines 1864-2445): early return when
`numRanks = 1`; otherwise run the overwrite consume traversal on the six
fields x, y, z, xd, yd, zd with nodal dimensions `size + 1`, and write the
results back.  Returns the updated domain and the consumed slots. -/
def commSyncPosVel (d : Domain) (pad : Nat) : Domain × List Slot :=
  if d.numRanks = 1 then (d, [])
  else
    let xf := 6
    let s := commSyncPosVelOps (xf * d.maxPlaneSize) (xf * d.maxEdgeSize) pad xf
      (d.sizeX + 1) (d.sizeY + 1) (d.sizeZ + 1)
      (rowMinF d.rowLoc) (rowMaxF d.rowLoc d.tp) (colMinF d.colLoc)
      (colMaxF d.colLoc d.tp) (planeMinF d.planeLoc) (planeMaxF d.planeLoc d.tp)
      (syncFields d) d.commDataRecv
    ({ d with
        x := fun i => s.F (0, i), y := fun i => s.F (1, i),
        z := fun i => s.F (2, i), xd := fun i => s.F (3, i),
        yd := fun i => s.F (4, i), zd := fun i => s.F (5, i) }, s.slots)

/-- Traversal state of `CommMonoQ`: the three advection-limiter fields
keyed by (field index, element index), the record of field writes in
order, the consumed slots, the running per-field destination offsets
`fieldOffset`, and the plane-message counter. -/
structure MonoQSt where
  F : Nat × Nat → ℚ
  writes : List ((Nat × Nat) × ℚ)
  slots : List Slot
  fieldOffset : Nat → Nat
  pmsg : Nat

/-- The field writes of one `CommMonoQ` face block (e.g. lines 2519-2526):
for each field `fi`, for each `i < opCount`, the cell
`(fi, fieldOffset fi + i)` takes the buffer value at
`off + fi*opCount + i`. -/
def monoQWrites (xf opCount off : Nat) (fieldOffset : Nat → Nat) (B : Nat → ℚ) :
    List ((Nat × Nat) × ℚ) :=
  (List.range xf).flatMap fun fi =>
    (List.range opCount).map fun i =>
      ((fi, fieldOffset fi + i), B (off + fi * opCount + i))

/-- One face consume branch of `CommMonoQ` (lines 2509-2528 etc.): wait on
request `pmsg`, copy the face block into the ghost strip at the current
field offsets, then advance each field offset by `opCount` — except in
the final colMax branch (lines 2620-2638), which omits the advance. -/
def monoQFace (cond : Bool) (dir : Dir) (xf opCount mpc : Nat) (advance : Bool)
    (B : Nat → ℚ) (s : MonoQSt) : MonoQSt :=
  if cond then
    { F := runW (monoQWrites xf opCount (s.pmsg * mpc) s.fieldOffset B) s.F,
      writes := s.writes ++ monoQWrites xf opCount (s.pmsg * mpc) s.fieldOffset B,
      slots := s.slots ++ [⟨dir, s.pmsg * mpc, s.pmsg⟩],
      fieldOffset := if advance then (fun fi => s.fieldOffset fi + opCount)
        else s.fieldOffset,
      pmsg := s.pmsg + 1 }
  else s

/-- The consume traversal of `CommMonoQ` (lulesh-comm.cc lines 2505-2639),
with the six boundary flags hoisted; `dx`, `dy`, `dz` are the element
dimensions `sizeX/Y/Z` (lines 2465-2467) and every `fieldOffset` starts at
`numElem` (lines 2499-2501).  Only the six face branches exist. -/
def commMonoQOps (mpc xf dx dy dz numElem : Nat) (rm rM cm cM pm pM : Bool)
    (F : Nat × Nat → ℚ) (B : Nat → ℚ) : MonoQSt :=
  let s := MonoQSt.mk F [] [] (fun _ => numElem) 0
  let s := monoQFace pm ⟨0,0,-1⟩ xf (dx*dy) mpc true B s
  let s := monoQFace pM ⟨0,0,1⟩ xf (dx*dy) mpc true B s
  let s := monoQFace rm ⟨0,-1,0⟩ xf (dx*dz) mpc true B s
  let s := monoQFace rM ⟨0,1,0⟩ xf (dx*dz) mpc true B s
  let s := monoQFace cm ⟨-1,0,0⟩ xf (dy*dz) mpc true B s
  let s := monoQFace cM ⟨1,0,0⟩ xf (dy*dz) mpc false B s
  s

/-- The three-entry field list of `CommMonoQ` (lines 2496-2498). -/
def monoQFields (d : Domain) : Nat × Nat → ℚ := fun p =>
  match p.1 with
  | 0 => d.delv_xi p.2
  | 1 => d.delv_eta p.2
  | 2 => d.delv_zeta p.2
  | _ => 0

/-- `CommMonoQ` (lulesh-comm.cc lines 2448-2640): early return when
`numRanks = 1`; otherwise consume the face messages into the ghost strips
of the three `delv_*` fields. -/
def commMonoQ (d : Domain) : MonoQSt :=
  if d.numRanks = 1 then
    MonoQSt.mk (monoQFields d) [] [] (fun _ => d.numElem) 0
  else
    let xf := 3
    commMonoQOps (xf * d.maxPlaneSize) xf d.sizeX d.sizeY d.sizeZ d.numElem
      (rowMinF d.rowLoc) (rowMaxF d.rowLoc d.tp) (colMinF d.colLoc)
      (colMaxF d.colLoc d.tp) (planeMinF d.planeLoc) (planeMaxF d.planeLoc d.tp)
      (monoQFields d) d.commDataRecv

/-- C7: when the world has a single rank, each of `CommRecv`, `CommSend`,
`CommSBN`, `CommSyncPosVel` and `CommMonoQ` returns immediately as a
no-op: no receive or send is posted, no buffer element is written, no
request slot is consumed, and no field of the domain is modified. -/
theorem comm_singleRank_noop
    (numRanks mps mes pad : Nat) (myRank : Int)
    (tp rowLoc colLoc planeLoc xf dx dy dz sizeX sizeY sizeZ : Nat)
    (doRecv doSend planeOnly : Bool) (F2 : Nat → Nat → ℚ)
    (G : Nat × Nat → ℚ) (B : Nat → ℚ) (d : Domain)
    (hn : numRanks = 1) (hd : d.numRanks = 1) :
    commRecv numRanks mps mes pad myRank tp rowLoc colLoc planeLoc
      xf dx dy dz doRecv planeOnly = RecvSt.mk [] 0 0 0 ∧
    commSend numRanks mps mes pad myRank tp rowLoc colLoc planeLoc
      xf dx dy dz doSend planeOnly F2 = SendSt.mk [] [] 0 0 0 ∧
    commSBN numRanks mps mes pad tp rowLoc colLoc planeLoc
      sizeX sizeY sizeZ xf G B = ConsumeSt.mk G [] 0 0 0 ∧
    commSyncPosVel d pad = (d, []) ∧
    commMonoQ d = MonoQSt.mk (monoQFields d) [] [] (fun _ => d.numElem) 0 := by
  subst hn
  refine ⟨?_, ?_, ?_, ?_, ?_⟩ <;>
    simp [commRecv, commSend, commSBN, commSyncPosVel, commMonoQ, hd]

/-- A single-rank domain used as concrete input. -/
def domSingle : Domain :=
  { numRanks := 1, tp := 1, rowLoc := 0, colLoc := 0, planeLoc := 0,
    sizeX := 1, sizeY := 1, sizeZ := 1, numElem := 1,
    maxPlaneSize := 4, maxEdgeSize := 2,
    x := fun _ => 0, y := fun _ => 0, z := fun _ => 0,
    xd := fun _ => 0, yd := fun _ => 0, zd := fun _ => 0,
    delv_xi := fun _ => 0, delv_eta := fun _ => 0, delv_zeta := fun _ => 0,
    commDataRecv := fun _ => 0 }

/-- Concrete witness for `comm_singleRank_noop`. -/
theorem comm_singleRank_noop_witness :
    commRecv 1 4 2 8 0 1 0 0 0 6 2 2 2 true false = RecvSt.mk [] 0 0 0 ∧
    commSend 1 4 2 8 0 1 0 0 0 6 2 2 2 true false (fun _ _ => 0) =
      SendSt.mk [] [] 0 0 0 ∧
    commSBN 1 4 2 8 1 0 0 0 1 1 1 6 (fun _ => 0) (fun _ => 0) =
      ConsumeSt.mk (fun _ => 0) [] 0 0 0 ∧
    commSyncPosVel domSingle 8 = (domSingle, []) ∧
    commMonoQ domSingle =
      MonoQSt.mk (monoQFields domSingle) [] [] (fun _ => domSingle.numElem) 0 :=
  comm_singleRank_noop 1 4 2 8 0 1 0 0 0 6 2 2 2 1 1 1 true true false
    (fun _ _ => 0) (fun _ => 0) (fun _ => 0) domSingle (by decide) (by decide)

/-- Invariant of the `CommMonoQ` traversal: all field offsets sit at or
past `ne`, all recorded writes target indices at or past `ne`, and all
consumed slots are face directions. -/
def monoQInv (ne : Nat) (s : MonoQSt) : Prop :=
  (∀ fi, ne ≤ s.fieldOffset fi) ∧ (∀ w ∈ s.writes, ne ≤ w.1.2) ∧
  (∀ sl ∈ s.slots, isFace sl.dir = true)

theorem monoQFace_inv (cond : Bool) (dir : Dir) (xf opCount mpc : Nat)
    (advance : Bool) (B : Nat → ℚ) (s : MonoQSt) (ne : Nat)
    (hdir : isFace dir = true) (h : monoQInv ne s) :
    monoQInv ne (monoQFace cond dir xf opCount mpc advance B s) := by
  unfold monoQFace
  by_cases hc : cond
  · simp only [hc, if_true]
    refine ⟨?_, ?_, ?_⟩
    · intro fi
      by_cases ha : advance <;> simp only [ha, if_true, if_false]
      · have := h.1 fi; omega
      · exact h.1 fi
    · intro w hw
      rcases List.mem_append.mp hw with h1 | h1
      · exact h.2.1 w h1
      · obtain ⟨fi, hfi, hw2⟩ := List.mem_flatMap.mp h1
        obtain ⟨i, hi, rfl⟩ := List.mem_map.mp hw2
        have := h.1 fi
        simp only []
        omega
    · intro sl hsl
      rcases List.mem_append.mp hsl with h1 | h1
      · exact h.2.2 sl h1
      · simp only [List.mem_singleton] at h1
        rw [h1]
        exact hdir
  · rw [if_neg hc]
    exact h

theorem monoQFace_frame (cond : Bool) (dir : Dir) (xf opCount mpc : Nat)
    (advance : Bool) (B : Nat → ℚ) (s : MonoQSt) (ne fi idx : Nat)
    (hoff : ∀ f, ne ≤ s.fieldOffset f) (hidx : idx < ne) :
    (monoQFace cond dir xf opCount mpc advance B s).F (fi, idx) = s.F (fi, idx) := by
  unfold monoQFace
  by_cases hc : cond
  · simp only [hc, if_true]
    apply runW_not_mem
    intro hmem
    rw [monoQWrites, List.map_flatMap] at hmem
    obtain ⟨fi2, hfi2, hmem2⟩ := List.mem_flatMap.mp hmem
    rw [List.map_map] at hmem2
    obtain ⟨i, hi, hkey⟩ := List.mem_map.mp hmem2
    simp only [Function.comp_def, Prod.mk.injEq] at hkey
    have := hoff fi2
    omega
  · rw [if_neg hc]

theorem commMonoQOps_inv (mpc xf dx dy dz ne : Nat) (rm rM cm cM pm pM : Bool)
    (F : Nat × Nat → ℚ) (B : Nat → ℚ) :
    monoQInv ne (commMonoQOps mpc xf dx dy dz ne rm rM cm cM pm pM F B) := by
  have h0 : monoQInv ne (MonoQSt.mk F [] [] (fun _ => ne) 0) :=
    ⟨fun _ => Nat.le_refl ne, by simp, by simp⟩
  simp only [commMonoQOps]
  exact monoQFace_inv cM ⟨1,0,0⟩ xf (dy*dz) mpc false B _ ne (by decide)
    (monoQFace_inv cm ⟨-1,0,0⟩ xf (dy*dz) mpc true B _ ne (by decide)
      (monoQFace_inv rM ⟨0,1,0⟩ xf (dx*dz) mpc true B _ ne (by decide)
        (monoQFace_inv rm ⟨0,-1,0⟩ xf (dx*dz) mpc true B _ ne (by decide)
          (monoQFace_inv pM ⟨0,0,1⟩ xf (dx*dy) mpc true B _ ne (by decide)
            (monoQFace_inv pm ⟨0,0,-1⟩ xf (dx*dy) mpc true B _ ne (by decide)
              h0)))))

theorem commMonoQOps_frame (mpc xf dx dy dz ne : Nat) (rm rM cm cM pm pM : Bool)
    (F : Nat × Nat → ℚ) (B : Nat → ℚ) (fi idx : Nat) (hidx : idx < ne) :
    (commMonoQOps mpc xf dx dy dz ne rm rM cm cM pm pM F B).F (fi, idx) =
      F (fi, idx) := by
  have h0 : monoQInv ne (MonoQSt.mk F [] [] (fun _ => ne) 0) :=
    ⟨fun _ => Nat.le_refl ne, by simp, by simp⟩
  have h1 := monoQFace_inv pm ⟨0,0,-1⟩ xf (dx*dy) mpc true B _ ne (by decide) h0
  have h2 := monoQFace_inv pM ⟨0,0,1⟩ xf (dx*dy) mpc true B _ ne (by decide) h1
  have h3 := monoQFace_inv rm ⟨0,-1,0⟩ xf (dx*dz) mpc true B _ ne (by decide) h2
  have h4 := monoQFace_inv rM ⟨0,1,0⟩ xf (dx*dz) mpc true B _ ne (by decide) h3
  have h5 := monoQFace_inv cm ⟨-1,0,0⟩ xf (dy*dz) mpc true B _ ne (by decide) h4
  simp only [commMonoQOps]
  rw [monoQFace_frame cM ⟨1,0,0⟩ xf (dy*dz) mpc false B _ ne fi idx h5.1 hidx]
  rw [monoQFace_frame cm ⟨-1,0,0⟩ xf (dy*dz) mpc true B _ ne fi idx h4.1 hidx]
  rw [monoQFace_frame rM ⟨0,1,0⟩ xf (dx*dz) mpc true B _ ne fi idx h3.1 hidx]
  rw [monoQFace_frame rm ⟨0,-1,0⟩ xf (dx*dz) mpc true B _ ne fi idx h2.1 hidx]
  rw [monoQFace_frame pM ⟨0,0,1⟩ xf (dx*dy) mpc true B _ ne fi idx h1.1 hidx]
  rw [monoQFace_frame pm ⟨0,0,-1⟩ xf (dx*dy) mpc true B _ ne fi idx h0.1 hidx]

/-- C8: `CommMonoQ` consumes Face messages only (never Edge or Corner),
every destination index it writes lies at or beyond `numElem` (the ghost
strip appended past the domain's own element range), and no field value
at an index below `numElem` is ever modified. -/
theorem commMonoQ_faces_only_ghost_range (d : Domain) :
    (∀ sl ∈ (commMonoQ d).slots, isFace sl.dir = true) ∧
    (∀ w ∈ (commMonoQ d).writes, d.numElem ≤ w.1.2) ∧
    (∀ fi idx, idx < d.numElem →
      (commMonoQ d).F (fi, idx) = monoQFields d (fi, idx)) := by
  by_cases hn : d.numRanks = 1
  · simp [commMonoQ, hn]
  · simp only [commMonoQ, if_neg hn]
    refine ⟨(commMonoQOps_inv _ _ _ _ _ _ _ _ _ _ _ _ _ _).2.2,
      (commMonoQOps_inv _ _ _ _ _ _ _ _ _ _ _ _ _ _).2.1, ?_⟩
    intro fi idx hidx
    exact commMonoQOps_frame _ _ _ _ _ _ _ _ _ _ _ _ _ _ fi idx hidx

/-- Concrete witness for `commMonoQ_faces_only_ghost_range`. -/
theorem commMonoQ_faces_only_ghost_range_witness :
    (∀ sl ∈ (commMonoQ domSingle).slots, isFace sl.dir = true) ∧
    (∀ w ∈ (commMonoQ domSingle).writes, domSingle.numElem ≤ w.1.2) ∧
    (∀ fi idx, idx < domSingle.numElem →
      (commMonoQ domSingle).F (fi, idx) = monoQFields domSingle (fi, idx)) :=
  commMonoQ_faces_only_ghost_range domSingle

/-- A multi-rank domain on a 2×2×2 grid at logical position
(row 0, col 0, plane 1), with a 1×1×1 element block (2×2×2 nodes), zero
fields and a receive buffer holding 1 everywhere. -/
def domCex : Domain :=
  { numRanks := 8, tp := 2, rowLoc := 0, colLoc := 0, planeLoc := 1,
    sizeX := 1, sizeY := 1, sizeZ := 1, numElem := 1,
    maxPlaneSize := 4, maxEdgeSize := 2,
    x := fun _ => 0, y := fun _ => 0, z := fun _ => 0,
    xd := fun _ => 0, yd := fun _ => 0, zd := fun _ => 0,
    delv_xi := fun _ => 0, delv_eta := fun _ => 0, delv_zeta := fun _ => 0,
    commDataRecv := fun _ => 1 }

/-- The slot triple of a consumed message. -/
def Slot.table (sl : Slot) : Dir × Nat × Nat := (sl.dir, sl.offset, sl.reqIdx)

/-- The slot triple of a posted receive. -/
def RecvPost.table (e : RecvPost) : Dir × Nat × Nat := (e.dir, e.offset, e.reqIdx)

/-- Simulation relation between a consume-phase traversal state and a
receive-posting state: equal slot tables and equal message counters. -/
def slotRel (s : ConsumeSt) (r : RecvSt) : Prop :=
  s.slots.map Slot.table = r.posts.map RecvPost.table ∧
  s.pmsg = r.pmsg ∧ s.emsg = r.emsg ∧ s.cmsg = r.cmsg

theorem slotRel_sbnFaceC {c1 c2 : Bool} {dir : Dir} {xf cnt : Nat}
    {mesh : Nat → Nat} {mpc : Nat} {B : Nat → ℚ} {fr : Int} {cnt2 : Nat}
    {s : ConsumeSt} {r : RecvSt} (hc : c1 = c2) (h : slotRel s r) :
    slotRel (sbnFaceC c1 dir xf cnt mesh mpc B s) (recvPlane c2 dir fr cnt2 mpc r) := by
  subst hc
  obtain ⟨h1, h2, h3, h4⟩ := h
  by_cases hco : c1 <;>
    simp [sbnFaceC, recvPlane, hco, slotRel, Slot.table, RecvPost.table,
      h1, h2, h3, h4]

theorem slotRel_sbnFaceN {c1 c2 : Bool} {dir : Dir} {xf n1 n2 cnt : Nat}
    {mesh bufIdx : Nat → Nat → Nat} {mpc : Nat} {B : Nat → ℚ} {fr : Int}
    {cnt2 : Nat} {s : ConsumeSt} {r : RecvSt} (hc : c1 = c2) (h : slotRel s r) :
    slotRel (sbnFaceN c1 dir xf n1 n2 cnt mesh bufIdx mpc B s)
      (recvPlane c2 dir fr cnt2 mpc r) := by
  subst hc
  obtain ⟨h1, h2, h3, h4⟩ := h
  by_cases hco : c1 <;>
    simp [sbnFaceN, recvPlane, hco, slotRel, Slot.table, RecvPost.table,
      h1, h2, h3, h4]

theorem slotRel_sbnEdge {c1 c2 : Bool} {dir : Dir} {xf len : Nat}
    {mesh : Nat → Nat} {mpc mec : Nat} {B : Nat → ℚ} {fr : Int} {cnt2 : Nat}
    {s : ConsumeSt} {r : RecvSt} (hc : c1 = c2) (h : slotRel s r) :
    slotRel (sbnEdge c1 dir xf len mesh mpc mec B s)
      (recvEdge c2 dir fr cnt2 mpc mec r) := by
  subst hc
  obtain ⟨h1, h2, h3, h4⟩ := h
  by_cases hco : c1 <;>
    simp [sbnEdge, recvEdge, hco, slotRel, Slot.table, RecvPost.table,
      h1, h2, h3, h4]

theorem slotRel_sbnCorner {c1 c2 : Bool} {dir : Dir} {xf idx : Nat}
    {mpc mec pad : Nat} {B : Nat → ℚ} {fr : Int} {cnt2 : Nat}
    {s : ConsumeSt} {r : RecvSt} (hc : c1 = c2) (h : slotRel s r) :
    slotRel (sbnCorner c1 dir xf idx mpc mec pad B s)
      (recvCorner c2 dir fr cnt2 mpc mec pad r) := by
  subst hc
  obtain ⟨h1, h2, h3, h4⟩ := h
  by_cases hco : c1 <;>
    simp [sbnCorner, recvCorner, hco, slotRel, Slot.table, RecvPost.table,
      h1, h2, h3, h4]

theorem slotRel_syncFaceC {c1 c2 : Bool} {dir : Dir} {xf cnt : Nat}
    {mesh : Nat → Nat} {mpc : Nat} {B : Nat → ℚ} {fr : Int} {cnt2 : Nat}
    {s : ConsumeSt} {r : RecvSt} (hc : c1 = c2) (h : slotRel s r) :
    slotRel (syncFaceC c1 dir xf cnt mesh mpc B s) (recvPlane c2 dir fr cnt2 mpc r) := by
  subst hc
  obtain ⟨h1, h2, h3, h4⟩ := h
  by_cases hco : c1 <;>
    simp [syncFaceC, recvPlane, hco, slotRel, Slot.table, RecvPost.table,
      h1, h2, h3, h4]

theorem slotRel_syncFaceN {c1 c2 : Bool} {dir : Dir} {xf n1 n2 cnt : Nat}
    {mesh bufIdx : Nat → Nat → Nat} {mpc : Nat} {B : Nat → ℚ} {fr : Int}
    {cnt2 : Nat} {s : ConsumeSt} {r : RecvSt} (hc : c1 = c2) (h : slotRel s r) :
    slotRel (syncFaceN c1 dir xf n1 n2 cnt mesh bufIdx mpc B s)
      (recvPlane c2 dir fr cnt2 mpc r) := by
  subst hc
  obtain ⟨h1, h2, h3, h4⟩ := h
  by_cases hco : c1 <;>
    simp [syncFaceN, recvPlane, hco, slotRel, Slot.table, RecvPost.table,
      h1, h2, h3, h4]

theorem slotRel_syncEdge {c1 c2 : Bool} {dir : Dir} {xf len : Nat}
    {mesh : Nat → Nat} {mpc mec : Nat} {B : Nat → ℚ} {fr : Int} {cnt2 : Nat}
    {s : ConsumeSt} {r : RecvSt} (hc : c1 = c2) (h : slotRel s r) :
    slotRel (syncEdge c1 dir xf len mesh mpc mec B s)
      (recvEdge c2 dir fr cnt2 mpc mec r) := by
  subst hc
  obtain ⟨h1, h2, h3, h4⟩ := h
  by_cases hco : c1 <;>
    simp [syncEdge, recvEdge, hco, slotRel, Slot.table, RecvPost.table,
      h1, h2, h3, h4]

theorem slotRel_syncCorner {c1 c2 : Bool} {dir : Dir} {xf idx : Nat}
    {mpc mec pad : Nat} {B : Nat → ℚ} {fr : Int} {cnt2 : Nat}
    {s : ConsumeSt} {r : RecvSt} (hc : c1 = c2) (h : slotRel s r) :
    slotRel (syncCorner c1 dir xf idx mpc mec pad B s)
      (recvCorner c2 dir fr cnt2 mpc mec pad r) := by
  subst hc
  obtain ⟨h1, h2, h3, h4⟩ := h
  by_cases hco : c1 <;>
    simp [syncCorner, recvCorner, hco, slotRel, Slot.table, RecvPost.table,
      h1, h2, h3, h4]

theorem slotRel_fst {s : ConsumeSt} {r : RecvSt} (h : slotRel s r) :
    s.slots.map Slot.table = r.posts.map RecvPost.table := h.1

theorem sbnOps_slots_eq_recvPosts (mpc mec pad : Nat) (myRank : Int)
    (tp xf dx dy dz : Nat) (rm rM cm cM pm pM : Bool)
    (F : Nat × Nat → ℚ) (B : Nat → ℚ) :
    ((commSBNOps mpc mec pad xf dx dy dz rm rM cm cM pm pM F B).slots).map
        Slot.table =
      ((commRecvPosts mpc mec pad myRank tp xf dx dy dz
          rm rM cm cM pm pM true false).posts).map RecvPost.table := by
  have base : slotRel (ConsumeSt.mk F [] 0 0 0) (RecvSt.mk [] 0 0 0) :=
    ⟨rfl, rfl, rfl, rfl⟩
  simp only [commSBNOps, commRecvPosts, Bool.false_eq_true, if_false]
  refine slotRel_fst ((slotRel_sbnCorner ?_ (slotRel_sbnCorner ?_ (slotRel_sbnCorner ?_ (slotRel_sbnCorner ?_ (slotRel_sbnCorner ?_ (slotRel_sbnCorner ?_ (slotRel_sbnCorner ?_ (slotRel_sbnCorner ?_ (slotRel_sbnEdge ?_ (slotRel_sbnEdge ?_ (slotRel_sbnEdge ?_ (slotRel_sbnEdge ?_ (slotRel_sbnEdge ?_ (slotRel_sbnEdge ?_ (slotRel_sbnEdge ?_ (slotRel_sbnEdge ?_ (slotRel_sbnEdge ?_ (slotRel_sbnEdge ?_ (slotRel_sbnEdge ?_ (slotRel_sbnEdge ?_ (slotRel_sbnFaceN ?_ (slotRel_sbnFaceN ?_ (slotRel_sbnFaceN ?_ (slotRel_sbnFaceN ?_ (slotRel_sbnFaceC ?_ (slotRel_sbnFaceC ?_ base)))))))))))))))))))))))))))
  all_goals (first | rfl | simp)

theorem syncOps_slots_eq_recvPosts (mpc mec pad : Nat) (myRank : Int)
    (tp xf dx dy dz : Nat) (rm rM cm cM pm pM : Bool)
    (F : Nat × Nat → ℚ) (B : Nat → ℚ) :
    ((commSyncPosVelOps mpc mec pad xf dx dy dz rm rM cm cM pm pM F B).slots).map
        Slot.table =
      ((commRecvPosts mpc mec pad myRank tp xf dx dy dz
          rm rM cm cM pm pM false false).posts).map RecvPost.table := by
  have base : slotRel (ConsumeSt.mk F [] 0 0 0) (RecvSt.mk [] 0 0 0) :=
    ⟨rfl, rfl, rfl, rfl⟩
  simp only [commSyncPosVelOps, commRecvPosts, Bool.false_eq_true, if_false]
  refine slotRel_fst ((slotRel_syncCorner ?_ (slotRel_syncCorner ?_ (slotRel_syncCorner ?_ (slotRel_syncCorner ?_ (slotRel_syncCorner ?_ (slotRel_syncCorner ?_ (slotRel_syncCorner ?_ (slotRel_syncCorner ?_ (slotRel_syncEdge ?_ (slotRel_syncEdge ?_ (slotRel_syncEdge ?_ (slotRel_syncEdge ?_ (slotRel_syncEdge ?_ (slotRel_syncEdge ?_ (slotRel_syncEdge ?_ (slotRel_syncEdge ?_ (slotRel_syncEdge ?_ (slotRel_syncEdge ?_ (slotRel_syncEdge ?_ (slotRel_syncEdge ?_ (slotRel_syncFaceN ?_ (slotRel_syncFaceN ?_ (slotRel_syncFaceN ?_ (slotRel_syncFaceN ?_ (slotRel_syncFaceC ?_ (slotRel_syncFaceC ?_ base)))))))))))))))))))))))))))
  all_goals (first | rfl | simp)

/-- C6: for one domain, the traversal of `CommSBN` assigns to each active
direction exactly the receive-buffer offset
(`pmsg·maxPlaneComm + emsg·maxEdgeComm + cmsg·pad`) and request index
(`pmsg+emsg+cmsg`) that `CommRecv` with `doRecv = true`,
`planeOnly = false` assigned when posting that direction's receive, in
the same order; and the traversal of `CommSyncPosVel` likewise matches
`CommRecv` with `doRecv = false`. -/
theorem comm_consume_slots_match_post
    (numRanks mps mes pad : Nat) (myRank : Int)
    (tp rowLoc colLoc planeLoc sizeX sizeY sizeZ xf : Nat)
    (G : Nat × Nat → ℚ) (B : Nat → ℚ) (d : Domain)
    (hn : numRanks ≠ 1) (hdn : d.numRanks ≠ 1) :
    ((commSBN numRanks mps mes pad tp rowLoc colLoc planeLoc
        sizeX sizeY sizeZ xf G B).slots).map Slot.table =
      ((commRecv numRanks mps mes pad myRank tp rowLoc colLoc planeLoc
          xf (sizeX + 1) (sizeY + 1) (sizeZ + 1) true false).posts).map
        RecvPost.table ∧
    (((commSyncPosVel d pad).2).map Slot.table =
      ((commRecv d.numRanks d.maxPlaneSize d.maxEdgeSize pad myRank d.tp
          d.rowLoc d.colLoc d.planeLoc 6 (d.sizeX + 1) (d.sizeY + 1)
          (d.sizeZ + 1) false false).posts).map RecvPost.table) := by
  constructor
  · simp only [commSBN, commRecv, if_neg hn]
    exact sbnOps_slots_eq_recvPosts _ _ _ myRank tp _ _ _ _ _ _ _ _ _ _ _ _
  · simp only [commSyncPosVel, commRecv, if_neg hdn]
    exact syncOps_slots_eq_recvPosts _ _ _ myRank d.tp _ _ _ _ _ _ _ _ _ _ _ _

/-- Concrete witness for `comm_consume_slots_match_post`. -/
theorem comm_consume_slots_match_post_witness :
    ((commSBN 8 4 2 8 2 0 1 1 1 1 1 3 (fun _ => 0) (fun _ => 0)).slots).map
        Slot.table =
      ((commRecv 8 4 2 8 (2:Int) 2 0 1 1 3 2 2 2 true false).posts).map
        RecvPost.table ∧
    (((commSyncPosVel domCex 8).2).map Slot.table =
      ((commRecv domCex.numRanks domCex.maxPlaneSize domCex.maxEdgeSize 8
          (2:Int) domCex.tp domCex.rowLoc domCex.colLoc domCex.planeLoc 6
          (domCex.sizeX + 1) (domCex.sizeY + 1) (domCex.sizeZ + 1)
          false false).posts).map RecvPost.table) :=
  comm_consume_slots_match_post 8 4 2 8 2 2 0 1 1 1 1 1 3 (fun _ => 0)
    (fun _ => 0) domCex (by decide) (by decide)

/-- Any key written by a contiguous unpack block has a mesh index of the
form `meshIdx i` with `i < cnt`. -/
theorem fieldWritesC_key_shape {xf cnt off : Nat} {meshIdx : Nat → Nat}
    {B : Nat → ℚ} {k : Nat × Nat}
    (hk : k ∈ (fieldWritesC xf cnt off meshIdx B).map Prod.fst) :
    ∃ i, i < cnt ∧ k.2 = meshIdx i := by
  simp only [fieldWritesC, List.map_flatMap, List.map_map, List.mem_flatMap,
    List.mem_map, List.mem_range, Function.comp_def] at hk
  obtain ⟨fi, _, i, hi, hke⟩ := hk
  exact ⟨i, hi, by rw [← hke]⟩

/-- Any key written by a doubly nested unpack block has a mesh index of
the form `meshIdx i j` with `i < n1`, `j < n2`. -/
theorem fieldWritesN_key_shape {xf n1 n2 cnt off : Nat}
    {meshIdx bufIdx : Nat → Nat → Nat} {B : Nat → ℚ} {k : Nat × Nat}
    (hk : k ∈ (fieldWritesN xf n1 n2 cnt off meshIdx bufIdx B).map Prod.fst) :
    ∃ i, i < n1 ∧ ∃ j, j < n2 ∧ k.2 = meshIdx i j := by
  simp only [fieldWritesN, List.map_flatMap, List.map_map, List.mem_flatMap,
    List.mem_map, List.mem_range, Function.comp_def] at hk
  obtain ⟨fi, _, i, hi, j, hj, hke⟩ := hk
  exact ⟨i, hi, j, hj, by rw [← hke]⟩

/-- Any key written by a corner unpack block has mesh index `idx`. -/
theorem fieldWritesCorner_key_shape {xf off idx : Nat} {B : Nat → ℚ}
    {k : Nat × Nat}
    (hk : k ∈ (fieldWritesCorner xf off idx B).map Prod.fst) :
    k.2 = idx := by
  simp only [fieldWritesCorner, List.map_map, List.mem_map, List.mem_range,
    Function.comp_def] at hk
  obtain ⟨fi, _, hke⟩ := hk
  rw [← hke]

/-- A `doRecv`-guarded branch of `CommSyncPosVel` never executes. -/
theorem syncFaceC_false (dir : Dir) (xf cnt : Nat) (meshIdx : Nat → Nat)
    (mpc : Nat) (B : Nat → ℚ) (s : ConsumeSt) :
    syncFaceC false dir xf cnt meshIdx mpc B s = s := rfl

/-- A `doRecv`-guarded branch of `CommSyncPosVel` never executes. -/
theorem syncFaceN_false (dir : Dir) (xf n1 n2 cnt : Nat)
    (meshIdx bufIdx : Nat → Nat → Nat) (mpc : Nat) (B : Nat → ℚ)
    (s : ConsumeSt) :
    syncFaceN false dir xf n1 n2 cnt meshIdx bufIdx mpc B s = s := rfl

/-- A `doRecv`-guarded branch of `CommSyncPosVel` never executes. -/
theorem syncEdge_false (dir : Dir) (xf len : Nat) (meshIdx : Nat → Nat)
    (mpc mec : Nat) (B : Nat → ℚ) (s : ConsumeSt) :
    syncEdge false dir xf len meshIdx mpc mec B s = s := rfl

/-- A `doRecv`-guarded branch of `CommSyncPosVel` never executes. -/
theorem syncCorner_false (dir : Dir) (xf idx : Nat) (mpc mec pad : Nat)
    (B : Nat → ℚ) (s : ConsumeSt) :
    syncCorner false dir xf idx mpc mec pad B s = s := rfl

/-- A face overwrite branch leaves every key outside its mesh-index image
unchanged. -/
theorem syncFaceC_frame {cond : Bool} {dir : Dir} {xf cnt : Nat}
    {meshIdx : Nat → Nat} {mpc : Nat} {B : Nat → ℚ} {s : ConsumeSt}
    {k : Nat × Nat} (h : cond = true → ∀ i, i < cnt → k.2 ≠ meshIdx i) :
    (syncFaceC cond dir xf cnt meshIdx mpc B s).F k = s.F k := by
  by_cases hc : cond = true
  · rw [syncFaceC, if_pos hc]
    refine runW_not_mem _ _ _ fun hmem => ?_
    obtain ⟨i, hi, hki⟩ := fieldWritesC_key_shape hmem
    exact h hc i hi hki
  · rw [syncFaceC, if_neg hc]

/-- A nested face overwrite branch leaves every key outside its mesh-index
image unchanged. -/
theorem syncFaceN_frame {cond : Bool} {dir : Dir} {xf n1 n2 cnt : Nat}
    {meshIdx bufIdx : Nat → Nat → Nat} {mpc : Nat} {B : Nat → ℚ}
    {s : ConsumeSt} {k : Nat × Nat}
    (h : cond = true → ∀ i j, i < n1 → j < n2 → k.2 ≠ meshIdx i j) :
    (syncFaceN cond dir xf n1 n2 cnt meshIdx bufIdx mpc B s).F k = s.F k := by
  by_cases hc : cond = true
  · rw [syncFaceN, if_pos hc]
    refine runW_not_mem _ _ _ fun hmem => ?_
    obtain ⟨i, hi, j, hj, hki⟩ := fieldWritesN_key_shape hmem
    exact h hc i j hi hj hki
  · rw [syncFaceN, if_neg hc]

/-- An edge overwrite branch leaves every key outside its mesh-index image
unchanged. -/
theorem syncEdge_frame {cond : Bool} {dir : Dir} {xf len : Nat}
    {meshIdx : Nat → Nat} {mpc mec : Nat} {B : Nat → ℚ} {s : ConsumeSt}
    {k : Nat × Nat} (h : cond = true → ∀ i, i < len → k.2 ≠ meshIdx i) :
    (syncEdge cond dir xf len meshIdx mpc mec B s).F k = s.F k := by
  by_cases hc : cond = true
  · rw [syncEdge, if_pos hc]
    refine runW_not_mem _ _ _ fun hmem => ?_
    obtain ⟨i, hi, hki⟩ := fieldWritesC_key_shape hmem
    exact h hc i hi hki
  · rw [syncEdge, if_neg hc]

/-- A corner overwrite branch leaves every key away from its corner index
unchanged. -/
theorem syncCorner_frame {cond : Bool} {dir : Dir} {xf idx : Nat}
    {mpc mec pad : Nat} {B : Nat → ℚ} {s : ConsumeSt} {k : Nat × Nat}
    (h : cond = true → k.2 ≠ idx) :
    (syncCorner cond dir xf idx mpc mec pad B s).F k = s.F k := by
  by_cases hc : cond = true
  · rw [syncCorner, if_pos hc]
    refine runW_not_mem _ _ _ fun hmem => ?_
    exact h hc (fieldWritesCorner_key_shape hmem)
  · rw [syncCorner, if_neg hc]

/-- The union of the mesh-index regions written by the thirteen branches of
`CommSyncPosVel` that are NOT guarded by `doRecv` (the planeMax, rowMax and
colMax faces, the six all-lexicographically-positive edges, and the four
planeMax corners), each under its boundary-flag condition; the index maps
are the source's. -/
def syncCovered (dx dy dz : Nat) (rm rM cm cM pm pM : Bool) (idx : Nat) :
    Prop :=
  (pM = true ∧ ∃ i, i < dx*dy ∧ idx = dx*dy*(dz - 1) + i) ∨
  (rM = true ∧ ∃ i, i < dz ∧ ∃ j, j < dx ∧ idx = dx*(dy - 1) + i*dx*dy + j) ∨
  (cM = true ∧ ∃ i, i < dz ∧ ∃ j, j < dy ∧ idx = dx - 1 + i*dx*dy + j*dx) ∨
  (rM = true ∧ cM = true ∧ ∃ i, i < dz ∧ idx = dx*dy - 1 + i*dx*dy) ∨
  (rM = true ∧ pM = true ∧ ∃ i, i < dx ∧ idx = dx*(dy-1) + dx*dy*(dz-1) + i) ∨
  (cM = true ∧ pM = true ∧ ∃ i, i < dy ∧ idx = dx*dy*(dz-1) + dx - 1 + i*dx) ∨
  (rM = true ∧ cm = true ∧ ∃ i, i < dz ∧ idx = dx*(dy-1) + i*dx*dy) ∨
  (rm = true ∧ pM = true ∧ ∃ i, i < dx ∧ idx = dx*dy*(dz-1) + i) ∨
  (cm = true ∧ pM = true ∧ ∃ i, i < dy ∧ idx = dx*dy*(dz-1) + i*dx) ∨
  (rm = true ∧ cm = true ∧ pM = true ∧ idx = dx*dy*(dz - 1)) ∨
  (rm = true ∧ cM = true ∧ pM = true ∧ idx = dx*dy*(dz - 1) + (dx - 1)) ∨
  (rM = true ∧ cm = true ∧ pM = true ∧ idx = dx*dy*(dz - 1) + dx*(dy - 1)) ∨
  (rM = true ∧ cM = true ∧ pM = true ∧ idx = dx*dy*dz - 1)

instance syncCoveredDec (dx dy dz : Nat) (rm rM cm cM pm pM : Bool)
    (idx : Nat) : Decidable (syncCovered dx dy dz rm rM cm cM pm pM idx) := by
  unfold syncCovered
  infer_instance

/-- The consume traversal of `CommSyncPosVel` leaves every field value
whose mesh index is outside `syncCovered` unchanged: the `doRecv`-guarded
branches never run, and the remaining branches only write inside their
regions. -/
theorem commSyncPosVelOps_frame (mpc mec pad xf dx dy dz : Nat)
    (rm rM cm cM pm pM : Bool) (F : Nat × Nat → ℚ) (B : Nat → ℚ)
    (k : Nat × Nat) (hk : ¬ syncCovered dx dy dz rm rM cm cM pm pM k.2) :
    (commSyncPosVelOps mpc mec pad xf dx dy dz rm rM cm cM pm pM F B).F k =
      F k := by
  simp only [syncCovered, not_or] at hk
  obtain ⟨n1, n2, n3, n4, n5, n6, n7, n8, n9, n10, n11, n12, n13⟩ := hk
  simp only [commSyncPosVelOps, Bool.and_false, syncFaceC_false,
    syncFaceN_false, syncEdge_false, syncCorner_false]
  refine (syncCorner_frame ?_).trans ((syncCorner_frame ?_).trans
    ((syncCorner_frame ?_).trans ((syncCorner_frame ?_).trans
    ((syncEdge_frame ?_).trans ((syncEdge_frame ?_).trans
    ((syncEdge_frame ?_).trans ((syncEdge_frame ?_).trans
    ((syncEdge_frame ?_).trans ((syncEdge_frame ?_).trans
    ((syncFaceN_frame ?_).trans ((syncFaceN_frame ?_).trans
    ((syncFaceC_frame ?_).trans rfl))))))))))))
  · intro hc he
    simp only [Bool.and_eq_true] at hc
    exact n13 ⟨hc.1.1, hc.1.2, hc.2, he⟩
  · intro hc he
    simp only [Bool.and_eq_true] at hc
    exact n12 ⟨hc.1.1, hc.1.2, hc.2, he⟩
  · intro hc he
    simp only [Bool.and_eq_true] at hc
    exact n11 ⟨hc.1.1, hc.1.2, hc.2, he⟩
  · intro hc he
    simp only [Bool.and_eq_true] at hc
    exact n10 ⟨hc.1.1, hc.1.2, hc.2, he⟩
  · intro hc i hi he
    simp only [Bool.and_eq_true] at hc
    exact n9 ⟨hc.1, hc.2, i, hi, he⟩
  · intro hc i hi he
    simp only [Bool.and_eq_true] at hc
    exact n8 ⟨hc.1, hc.2, i, hi, he⟩
  · intro hc i hi he
    simp only [Bool.and_eq_true] at hc
    exact n7 ⟨hc.1, hc.2, i, hi, he⟩
  · intro hc i hi he
    simp only [Bool.and_eq_true] at hc
    exact n6 ⟨hc.1, hc.2, i, hi, he⟩
  · intro hc i hi he
    simp only [Bool.and_eq_true] at hc
    exact n5 ⟨hc.1, hc.2, i, hi, he⟩
  · intro hc i hi he
    simp only [Bool.and_eq_true] at hc
    exact n4 ⟨hc.1, hc.2, i, hi, he⟩
  · intro hc i j hi hj he
    exact n3 ⟨hc, i, hi, j, hj, he⟩
  · intro hc i j hi hj he
    exact n2 ⟨hc, i, hi, j, hj, he⟩
  · intro hc i hi he
    exact n1 ⟨hc, i, hi, he⟩

/-- C10 (amended): `CommSyncPosVel` fixes `doRecv` to the constant `false`,
so every `doRecv`-guarded consumption branch is unreachable; at every node
index outside `syncCovered` — the union of the regions written by the
thirteen remaining unguarded branches — the six fields x, y, z, xd, yd, zd
are left unchanged, and the fields `delv_xi`, `delv_eta`, `delv_zeta` and
the receive buffer are never modified at any index.  (The original claim
that the boundary regions belonging to the guarded directions are left
unchanged is refuted by `commSyncPosVel_guarded_region_cex`: those regions
overlap the unguarded ones.) -/
theorem commSyncPosVel_frame (d : Domain) (pad idx : Nat)
    (h : ¬ syncCovered (d.sizeX + 1) (d.sizeY + 1) (d.sizeZ + 1)
        (rowMinF d.rowLoc) (rowMaxF d.rowLoc d.tp) (colMinF d.colLoc)
        (colMaxF d.colLoc d.tp) (planeMinF d.planeLoc)
        (planeMaxF d.planeLoc d.tp) idx) :
    ((commSyncPosVel d pad).1.x idx = d.x idx ∧
      (commSyncPosVel d pad).1.y idx = d.y idx ∧
      (commSyncPosVel d pad).1.z idx = d.z idx) ∧
    ((commSyncPosVel d pad).1.xd idx = d.xd idx ∧
      (commSyncPosVel d pad).1.yd idx = d.yd idx ∧
      (commSyncPosVel d pad).1.zd idx = d.zd idx) ∧
    (commSyncPosVel d pad).1.delv_xi = d.delv_xi ∧
    (commSyncPosVel d pad).1.delv_eta = d.delv_eta ∧
    (commSyncPosVel d pad).1.delv_zeta = d.delv_zeta ∧
    (commSyncPosVel d pad).1.commDataRecv = d.commDataRecv := by
  by_cases hn : d.numRanks = 1
  · simp [commSyncPosVel, hn]
  · simp only [commSyncPosVel, if_neg hn]
    exact ⟨⟨commSyncPosVelOps_frame _ _ _ _ _ _ _ _ _ _ _ _ _ _ _ (0, idx) h,
        commSyncPosVelOps_frame _ _ _ _ _ _ _ _ _ _ _ _ _ _ _ (1, idx) h,
        commSyncPosVelOps_frame _ _ _ _ _ _ _ _ _ _ _ _ _ _ _ (2, idx) h⟩,
      ⟨commSyncPosVelOps_frame _ _ _ _ _ _ _ _ _ _ _ _ _ _ _ (3, idx) h,
        commSyncPosVelOps_frame _ _ _ _ _ _ _ _ _ _ _ _ _ _ _ (4, idx) h,
        commSyncPosVelOps_frame _ _ _ _ _ _ _ _ _ _ _ _ _ _ _ (5, idx) h⟩,
      by trivial, by trivial, by trivial, by trivial⟩

/-- Concrete witness for `commSyncPosVel_frame`: on `domCex`, node index 0
is outside every unguarded region and all fields are unchanged there. -/
theorem commSyncPosVel_frame_witness :
    (¬ syncCovered (domCex.sizeX + 1) (domCex.sizeY + 1) (domCex.sizeZ + 1)
        (rowMinF domCex.rowLoc) (rowMaxF domCex.rowLoc domCex.tp)
        (colMinF domCex.colLoc) (colMaxF domCex.colLoc domCex.tp)
        (planeMinF domCex.planeLoc) (planeMaxF domCex.planeLoc domCex.tp) 0) ∧
    (((commSyncPosVel domCex 8).1.x 0 = domCex.x 0 ∧
        (commSyncPosVel domCex 8).1.y 0 = domCex.y 0 ∧
        (commSyncPosVel domCex 8).1.z 0 = domCex.z 0) ∧
      ((commSyncPosVel domCex 8).1.xd 0 = domCex.xd 0 ∧
        (commSyncPosVel domCex 8).1.yd 0 = domCex.yd 0 ∧
        (commSyncPosVel domCex 8).1.zd 0 = domCex.zd 0) ∧
      (commSyncPosVel domCex 8).1.delv_xi = domCex.delv_xi ∧
      (commSyncPosVel domCex 8).1.delv_eta = domCex.delv_eta ∧
      (commSyncPosVel domCex 8).1.delv_zeta = domCex.delv_zeta ∧
      (commSyncPosVel domCex 8).1.commDataRecv = domCex.commDataRecv) :=
  ⟨by decide, commSyncPosVel_frame domCex 8 0 (by decide)⟩

/-- C10 counterexample: on `domCex` the planeMin direction is boundary
active (`pm = true`) but its consumption is guarded by `doRecv = false`;
node index 2 lies in the planeMin face region (the indices `i < dx*dy`
that the planeMin branch would write), yet `CommSyncPosVel` changes `x`
there — the unguarded rowMax face branch writes into it.  So the guarded
directions' boundary regions are NOT left unchanged. -/
theorem commSyncPosVel_guarded_region_cex :
    planeMinF domCex.planeLoc = true ∧
    2 < (domCex.sizeX + 1) * (domCex.sizeY + 1) ∧
    (commSyncPosVel domCex 8).1.x 2 ≠ domCex.x 2 :=
  ⟨rfl, by decide, by decide⟩

end LuleshComm
